import Mathlib

/-!
# Intcode process VM (2019, day 21 `main.go`)

A shallow embedding of the `Process` virtual machine of
`src/2019/021-Springdroid-Adventure/main.go` and theorems about it, with the earlier
`Program` virtual machine of `src/2019/005-Sunny-with-a-Chance-of-Asteroids/main.go`.

Modelling conventions.

* A Go `[]int` is a `List Int`; a Go `int` is an `Int`.  The additions and the product
  that the VM performs on *data* (`value1+value2`, `value1*value2`, `pointer + p.relativeBase`,
  `p.relativeBase += value`) wrap around at 64 bits (`goAdd`, `goMul`).  The pointer
  increments `p.position+k` are only evaluated after `p.Read(p.position)` succeeded, so
  `0 ≤ p.position < len(p.memory)` and they cannot overflow; they are plain additions.
* Go `%` and `/` truncate toward zero: `Int.tmod` and `Int.tdiv`.
* A Go function that returns an `error` returns `Option Error` (`none` is `nil`).
* An indexing expression with an index out of range is a Go run-time panic: `panicked`.
* `RunTilInterupt` calls itself in tail position after every instruction and need not
  terminate, so it takes a fuel argument: the number of instructions it may execute.
  `none` means the fuel ran out, not that the Go call returned.
-/

namespace Intcode

/-! ## Data model -/

/-- Reduction of an integer to the range of a 64-bit two's-complement Go `int`. -/
def wrap64 (z : Int) : Int := (z + 2 ^ 63) % 2 ^ 64 - 2 ^ 63

/-- Go `a + b` on `int`. -/
def goAdd (a b : Int) : Int := wrap64 (a + b)

/-- Go `a * b` on `int`. -/
def goMul (a b : Int) : Int := wrap64 (a * b)

/-- The four `fmt.Errorf` values of `main.go`, one constructor per format string. -/
inductive Error where
  /-- The error `"Index %d out of range"` of `Process.Read`. -/
  | readOutOfRange (position : Int)
  /-- The error `"Index out of range"` of `Process.Write`. -/
  | writeOutOfRange
  /-- The error `"Unknonwn input mode"` of `Process.LoadParam`. -/
  | unknownInputMode
  /-- The error `"Unknonwn opcode %d"` of `Process.RunTilInterupt`. -/
  | unknownOpcode (operation : Int)
  deriving DecidableEq, Repr

/-- The struct `Process`. -/
structure Process where
  memory : List Int
  position : Int
  output : List Int
  input : List Int
  inputPointer : Int
  outputPointer : Int
  relativeBase : Int
  halted : Bool
  deriving DecidableEq, Repr

/-- How a call on a `*Process` ends: it returns, leaving the process in state `p` and
giving back `err`, or it panics. -/
inductive Outcome where
  | returned (p : Process) (err : Option Error)
  | panicked
  deriving DecidableEq, Repr

/-- How the body of `RunTilInterupt` ends for one instruction: with the tail call
`return p.RunTilInterupt()` on the updated process, with a `return`, or with a panic. -/
inductive Step where
  | recurse (p : Process)
  | returned (p : Process) (err : Option Error)
  | panicked
  deriving DecidableEq, Repr

/-- The constant headroom of `NewProcess`. -/
def headroom : Nat := 900000

/-- `NewProcess`: `make([]int, len(code)+900000)`, `copy(memory, code)`, zero values for
the fields the struct literal leaves out. -/
def NewProcess (code : List Int) (input : List Int) : Process :=
  { memory := code ++ List.replicate headroom 0
    position := 0
    output := []
    input := input
    inputPointer := 0
    outputPointer := 0
    relativeBase := 0
    halted := false }

/-! ## Memory access -/

/-- `Process.Read`. -/
def Process.Read (p : Process) (position : Int) : Except Error Int :=
  if position ≥ p.memory.length ∨ position < 0 then
    .error (.readOutOfRange position)
  else
    .ok (p.memory.getD position.toNat 0)

/-- The indexed assignment `p.memory[address] = value`; `none` is the index-out-of-range
panic. -/
def Process.store (p : Process) (address value : Int) : Option Process :=
  if 0 ≤ address ∧ address < p.memory.length then
    some { p with memory := p.memory.set address.toNat value }
  else
    none

/-- `Process.Write`.  The bounds check is on `position`, the cell that holds the
parameter; the address stored to is `p.memory[position]` (plus `p.relativeBase` in
relative mode).  The `switch` has no `default`. -/
def Process.Write (p : Process) (position value mode : Int) : Outcome :=
  if position ≥ p.memory.length ∨ position < 0 then
    .returned p (some .writeOutOfRange)
  else if mode = 0 then
    match p.store (p.memory.getD position.toNat 0) value with
    | some p1 => .returned p1 none
    | none => .panicked
  else if mode = 2 then
    match p.store (goAdd (p.memory.getD position.toNat 0) p.relativeBase) value with
    | some p1 => .returned p1 none
    | none => .panicked
  else
    .returned p none

/-- `Process.LoadParam`. -/
def Process.LoadParam (p : Process) (position mode : Int) : Except Error Int :=
  if mode = 0 then
    match p.Read position with
    | .error err => .error err
    | .ok pointer =>
      match p.Read pointer with
      | .error err => .error err
      | .ok value => .ok value
  else if mode = 1 then
    match p.Read position with
    | .error err => .error err
    | .ok value => .ok value
  else if mode = 2 then
    match p.Read position with
    | .error err => .error err
    | .ok pointer =>
      match p.Read (goAdd pointer p.relativeBase) with
      | .error err => .error err
      | .ok value => .ok value
  else
    .error .unknownInputMode

/-! ## The instruction decoder -/

/-- The expression `operation % 100`. -/
def instructionOf (operation : Int) : Int := operation.tmod 100

/-- The expression `(operation / 100) % 10`. -/
def param1ModeOf (operation : Int) : Int := (operation.tdiv 100).tmod 10

/-- The expression `(operation / 1000) % 10`. -/
def param2ModeOf (operation : Int) : Int := (operation.tdiv 1000).tmod 10

/-- The expression `(operation / 10000) % 10`. -/
def param3ModeOf (operation : Int) : Int := (operation.tdiv 10000).tmod 10

/-! ## The executor -/

/-- The cases `OpcodeAdd`, `OpcodeMultiply`, `OpcodeLessThan` and `OpcodeEquals`, which
differ only in the value `f value1 value2` they write: two `LoadParam`, each returning
its error; `p.Write(p.position+3, ..., param3Mode)` with the returned error dropped;
`p.position += 4`; the tail call. -/
def Process.binary (p : Process) (f : Int → Int → Int) (m1 m2 m3 : Int) : Step :=
  match p.LoadParam (p.position + 1) m1 with
  | .error err => .returned p (some err)
  | .ok value1 =>
    match p.LoadParam (p.position + 2) m2 with
    | .error err => .returned p (some err)
    | .ok value2 =>
      match p.Write (p.position + 3) (f value1 value2) m3 with
      | .panicked => .panicked
      | .returned p1 _ => .recurse { p1 with position := p1.position + 4 }

/-- The cases `OpcodeJumpIfTrue` (`taken value1` is `value1 != 0`) and `OpcodeJumpIfFalse`
(`taken value1` is `value1 == 0`): the second parameter is loaded only when the jump is
taken. -/
def Process.jump (p : Process) (taken : Int → Bool) (m1 m2 : Int) : Step :=
  match p.LoadParam (p.position + 1) m1 with
  | .error err => .returned p (some err)
  | .ok value1 =>
    if taken value1 then
      match p.LoadParam (p.position + 2) m2 with
      | .error err => .returned p (some err)
      | .ok value2 => .recurse { p with position := value2 }
    else
      .recurse { p with position := p.position + 3 }

/-- The case `OpcodeGetInput`. -/
def Process.getInput (p : Process) (m1 : Int) : Step :=
  if p.inputPointer = p.input.length then
    .returned p none
  else if 0 ≤ p.inputPointer ∧ p.inputPointer < p.input.length then
    match p.Write (p.position + 1) (p.input.getD p.inputPointer.toNat 0) m1 with
    | .panicked => .panicked
    | .returned p1 _ =>
      .recurse { p1 with inputPointer := p1.inputPointer + 1, position := p1.position + 2 }
  else
    .panicked

/-- The case `OpcodeWriteOutput`. -/
def Process.writeOutput (p : Process) (m1 : Int) : Step :=
  match p.LoadParam (p.position + 1) m1 with
  | .error err => .returned p (some err)
  | .ok value => .recurse { p with output := p.output ++ [value], position := p.position + 2 }

/-- The case `OpcodeAdjustRelativeBase`. -/
def Process.adjustRelativeBase (p : Process) (m1 : Int) : Step :=
  match p.LoadParam (p.position + 1) m1 with
  | .error err => .returned p (some err)
  | .ok value =>
    .recurse { p with relativeBase := goAdd p.relativeBase value, position := p.position + 2 }

/-- The `switch instruction` of `RunTilInterupt`. -/
def Process.dispatch (p : Process) (operation : Int) : Step :=
  let instruction := instructionOf operation
  let param1Mode := param1ModeOf operation
  let param2Mode := param2ModeOf operation
  let param3Mode := param3ModeOf operation
  if instruction = 1 then
    p.binary goAdd param1Mode param2Mode param3Mode
  else if instruction = 2 then
    p.binary goMul param1Mode param2Mode param3Mode
  else if instruction = 3 then
    p.getInput param1Mode
  else if instruction = 4 then
    p.writeOutput param1Mode
  else if instruction = 5 then
    p.jump (fun value1 => decide (value1 ≠ 0)) param1Mode param2Mode
  else if instruction = 6 then
    p.jump (fun value1 => decide (value1 = 0)) param1Mode param2Mode
  else if instruction = 7 then
    p.binary (fun value1 value2 => if value1 < value2 then 1 else 0)
      param1Mode param2Mode param3Mode
  else if instruction = 8 then
    p.binary (fun value1 value2 => if value1 = value2 then 1 else 0)
      param1Mode param2Mode param3Mode
  else if instruction = 9 then
    p.adjustRelativeBase param1Mode
  else if instruction = 99 then
    .returned { p with halted := true } none
  else
    .returned p (some (.unknownOpcode operation))

/-- The body of `RunTilInterupt` up to its tail call: fetch, decode, execute one
instruction. -/
def Process.body (p : Process) : Step :=
  match p.Read p.position with
  | .error err => .returned p (some err)
  | .ok operation => p.dispatch operation

/-- `Process.RunTilInterupt`, with `fuel` bounding the number of instructions. -/
def Process.RunTilInterupt : Nat → Process → Option Outcome
  | 0, _ => none
  | fuel + 1, p =>
    match p.body with
    | .recurse p1 => Process.RunTilInterupt fuel p1
    | .returned p1 err => some (.returned p1 err)
    | .panicked => some .panicked

/-- The Go call `p.RunTilInterupt()` ends with outcome `out`. -/
def Process.Runs (p : Process) (out : Outcome) : Prop :=
  ∃ fuel, p.RunTilInterupt fuel = some out

/-- `Process.AddInput`. -/
def Process.AddInput (p : Process) (val : Int) : Process :=
  { p with input := p.input ++ [val] }

/-! ## Auxiliary notions used in the proofs -/

/-- The process `p` with `tail` appended to its memory. -/
def Process.extend (p : Process) (tail : List Int) : Process :=
  { p with memory := p.memory ++ tail }

/-- The step `s` with `tail` appended to the memory of its process. -/
def Step.extend : Step → List Int → Step
  | .recurse p, tail => .recurse (p.extend tail)
  | .returned p err, tail => .returned (p.extend tail) err
  | .panicked, _ => .panicked

/-- The step neither returned an error nor panicked. -/
def Step.clean : Step → Bool
  | .recurse _ => true
  | .returned _ none => true
  | _ => false

/-- Along the first `fuel` instructions from `p`, every instruction has its three
parameter cells inside the memory. -/
def Process.roomy : Nat → Process → Bool
  | 0, _ => true
  | fuel + 1, p =>
    decide (0 ≤ p.position ∧ p.position + 3 < p.memory.length) &&
      match p.body with
      | .recurse p1 => Process.roomy fuel p1
      | _ => true

/-- A process on `code` followed by `pad` zero cells: `NewProcess` with `pad` in place
of the constant 900000. -/
def padded (code : List Int) (pad : Nat) (input : List Int) : Process :=
  { memory := code ++ List.replicate pad 0
    position := 0
    output := []
    input := input
    inputPointer := 0
    outputPointer := 0
    relativeBase := 0
    halted := false }

/-- The address to which `Write(position, value, mode)` stores in mode 0 or 2: the index
expression `p.memory[position]`, or `p.memory[position]+p.relativeBase`. -/
def Process.destination (p : Process) (position mode : Int) : Int :=
  if mode = 0 then p.memory.getD position.toNat 0
  else goAdd (p.memory.getD position.toNat 0) p.relativeBase

/-! ## Programs -/

/-- The "equal to 8" program of the commented test in the day-5 `main`. -/
def equals8 : List Int := [3, 9, 8, 9, 10, 9, 4, 9, 99, -1, 8]

/-- A program that prints itself, counting in cell 100 and testing in cell 101. -/
def quine : List Int :=
  [109, 1, 204, -1, 1001, 100, 1, 100, 1008, 100, 16, 101, 1006, 101, 0, 99]

/-- The state in which the run of `quine` on 102 cells ends. -/
def quineFinal : Process :=
  { memory := quine ++ List.replicate 84 0 ++ [16, 1]
    position := 15
    output := quine
    input := []
    inputPointer := 0
    outputPointer := 0
    relativeBase := 16
    halted := true }

/-- The step `s` with `f` applied to its process. -/
def Step.map (f : Process → Process) : Step → Step
  | .recurse p => .recurse (f p)
  | .returned p err => .returned (f p) err
  | .panicked => .panicked

/-- The outcome `out` with `f` applied to its process. -/
def Outcome.map (f : Process → Process) : Outcome → Outcome
  | .returned p err => .returned (f p) err
  | .panicked => .panicked

/-- `AddInput` of each element of `vals`, in order. -/
def Process.AddInputs (p : Process) (vals : List Int) : Process :=
  vals.foldl Process.AddInput p

/-- The process `p` with `vals` appended to its input queue. -/
def Process.supply (p : Process) (vals : List Int) : Process :=
  { p with input := p.input ++ vals }

/-- The instruction at the pointer is `OpcodeGetInput` and no unread input is left: the
state in which `RunTilInterupt` returns nil to wait for input. -/
def Process.starved (p : Process) : Prop :=
  0 ≤ p.position ∧ p.position < p.memory.length ∧
    instructionOf (p.memory.getD p.position.toNat 0) = 3 ∧ p.inputPointer = p.input.length

instance (p : Process) : Decidable p.starved := by
  unfold Process.starved; infer_instance

/-- The input cursor is inside the input queue or at its end. -/
def Process.cursorOK (p : Process) : Prop :=
  0 ≤ p.inputPointer ∧ p.inputPointer ≤ p.input.length

instance (p : Process) : Decidable p.cursorOK := by
  unfold Process.cursorOK; infer_instance

/-- What follows a first call of `RunTilInterupt` that ended with `out1`: after a panic
nothing; after a return, `AddInput` of each element of `vals` in order and a second call
of `RunTilInterupt`, which ends with `out`. -/
def Outcome.ResumesTo (out1 : Outcome) (vals : List Int) (out : Outcome) : Prop :=
  match out1 with
  | .panicked => out = .panicked
  | .returned q _ => (q.AddInputs vals).Runs out

/-- Scenario (a) of resumption ends with outcome `out`: `RunTilInterupt` on `p`, then
`AddInput` of each element of `vals` in order, then `RunTilInterupt` again.  When the
first call panics the Go program ends there. -/
def Process.ResumedRuns (p : Process) (vals : List Int) (out : Outcome) : Prop :=
  ∃ out1, p.Runs out1 ∧ out1.ResumesTo vals out

/-- The values that the `OpcodeGetInput` instructions among the first `fuel` instructions
from `p` pass to `Write` (each is `p.input[p.inputPointer]` at its time), in the order of
execution. -/
def Process.consumed : Nat → Process → List Int
  | 0, _ => []
  | fuel + 1, p =>
    match p.body with
    | .recurse p1 =>
      if instructionOf (p.memory.getD p.position.toNat 0) = 3 then
        p.input.getD p.inputPointer.toNat 0 :: Process.consumed fuel p1
      else
        Process.consumed fuel p1
    | _ => []

/-- `Process.NextOutput`: the value returned and the process after the call; `none` is
the index-out-of-range panic of `p.output[p.outputPointer]`. -/
def Process.NextOutput (p : Process) : Option (Int × Process) :=
  if 0 ≤ p.outputPointer ∧ p.outputPointer < p.output.length then
    some (p.output.getD p.outputPointer.toNat 0,
      { p with outputPointer := p.outputPointer + 1 })
  else
    none

/-- None of the first `fuel` instructions executed from `p` has opcode 9
(`OpcodeAdjustRelativeBase`). -/
def Process.noAdjust : Nat → Process → Bool
  | 0, _ => true
  | fuel + 1, p =>
    decide (instructionOf (p.memory.getD p.position.toNat 0) ≠ 9) &&
      match p.body with
      | .recurse p1 => Process.noAdjust fuel p1
      | _ => true

/-- The address `address` is inside the memory: `0 ≤ address < len(p.memory)`. -/
def Process.inRange (p : Process) (address : Int) : Prop :=
  0 ≤ address ∧ address < p.memory.length

instance (p : Process) (address : Int) : Decidable (p.inRange address) := by
  unfold Process.inRange; infer_instance

/-- The bounds-checked memory of the specification (section 4.1): the cell at `address`,
or nothing when `address` is outside `[0, capacity)`. -/
def Process.cell? (p : Process) (address : Int) : Option Int :=
  if p.inRange address then some (p.memory.getD address.toNat 0) else none

/-- The parameter resolver in the words of the specification (section 4.3), to compare
`LoadParam` with: Position `Memory[Memory[position]]`, Immediate `Memory[position]`,
Relative `Memory[Memory[position] + RelativeBase]` (the sum of Go's `int`), nothing when
an address is out of bounds or the mode is none of the three. -/
def Process.resolveRead (p : Process) (position mode : Int) : Option Int :=
  if mode = 0 then
    (p.cell? position).bind fun pointer => p.cell? pointer
  else if mode = 1 then
    p.cell? position
  else if mode = 2 then
    (p.cell? position).bind fun pointer => p.cell? (goAdd pointer p.relativeBase)
  else
    none

/-- The struct `Program` of the day-5 VM
(`src/2019/005-Sunny-with-a-Chance-of-Asteroids/main.go`). -/
structure Program where
  memory : List Int
  position : Int
  deriving DecidableEq, Repr

/-- `Program.Read` of the day-5 VM; its error has the format string of `Process.Read`. -/
def Program.Read (p : Program) (position : Int) : Except Error Int :=
  if position ≥ p.memory.length ∨ position < 0 then
    .error (.readOutOfRange position)
  else
    .ok (p.memory.getD position.toNat 0)

/-- The `k` successive calls `p.NextOutput()`: the values returned, in order, and the
process after the last call; `none` when one of the calls panics. -/
def Process.NextOutputs : Nat → Process → Option (List Int × Process)
  | 0, p => some ([], p)
  | k + 1, p =>
    match p.NextOutput with
    | none => none
    | some (value, p1) =>
      match Process.NextOutputs k p1 with
      | none => none
      | some (values, p2) => some (value :: values, p2)

/-- The struct `Output` of the day-5 VM. -/
structure Output where
  values : List Int
  deriving DecidableEq, Repr

/-- `NewProgram` of the day-5 VM: `make([]int, len(code))` and `copy(memory, code)`. -/
def NewProgram (code : List Int) : Program :=
  { memory := code, position := 0 }

/-- `Program.Write` of the day-5 VM: the program after the call and the error returned.
The bounds check is on the address written to. -/
def Program.Write (p : Program) (position value : Int) : Program × Option Error :=
  if position ≥ p.memory.length ∨ position < 0 then
    (p, some .writeOutOfRange)
  else
    ({ p with memory := p.memory.set position.toNat value }, none)

/-- `Program.LoadParam` of the day-5 VM: modes 0 and 1 only. -/
def Program.LoadParam (p : Program) (position mode : Int) : Except Error Int :=
  if mode = 0 then
    match p.Read position with
    | .error err => .error err
    | .ok pointer =>
      match p.Read pointer with
      | .error err => .error err
      | .ok value => .ok value
  else if mode = 1 then
    match p.Read position with
    | .error err => .error err
    | .ok value => .ok value
  else
    .error .unknownInputMode

/-- How the body of `Program.Run` ends for one instruction: at the tail call
`return p.Run(input, output)` at the bottom of the function, or with a `return`. -/
inductive ProgramStep where
  | recurse (p : Program) (output : Output)
  | returned (p : Program) (output : Output) (err : Option Error)
  deriving DecidableEq, Repr

/-- The cases `OpcodeAdd`, `OpcodeMultiply`, `OpcodeLessThan` and `OpcodeEquals` of
`Program.Run`, which differ only in the value `f value1 value2` they write: two
`LoadParam` and a `Read` of the result pointer, each returning its error; `p.Write` with
the returned error dropped; `p.position += 4`. -/
def Program.binary (p : Program) (output : Output) (f : Int → Int → Int) (m1 m2 : Int) :
    ProgramStep :=
  match p.LoadParam (p.position + 1) m1 with
  | .error err => .returned p output (some err)
  | .ok value1 =>
    match p.LoadParam (p.position + 2) m2 with
    | .error err => .returned p output (some err)
    | .ok value2 =>
      match p.Read (p.position + 3) with
      | .error err => .returned p output (some err)
      | .ok resultPointer =>
        let p1 := (p.Write resultPointer (f value1 value2)).1
        .recurse { p1 with position := p1.position + 4 } output

/-- The cases `OpcodeJumpIfTrue` and `OpcodeJumpIfFalse` of `Program.Run`. -/
def Program.jump (p : Program) (output : Output) (taken : Int → Bool) (m1 m2 : Int) :
    ProgramStep :=
  match p.LoadParam (p.position + 1) m1 with
  | .error err => .returned p output (some err)
  | .ok value1 =>
    if taken value1 then
      match p.LoadParam (p.position + 2) m2 with
      | .error err => .returned p output (some err)
      | .ok value2 => .recurse { p with position := value2 } output
    else
      .recurse { p with position := p.position + 3 } output

/-- The case `OpcodeGetInput` of `Program.Run`: the one `input` of the call is written,
the error of `Write` is dropped. -/
def Program.getInput (p : Program) (input : Int) (output : Output) : ProgramStep :=
  match p.Read (p.position + 1) with
  | .error err => .returned p output (some err)
  | .ok pointer =>
    let p1 := (p.Write pointer input).1
    .recurse { p1 with position := p1.position + 2 } output

/-- The case `OpcodeWriteOutput` of `Program.Run`. -/
def Program.writeOutput (p : Program) (output : Output) (m1 : Int) : ProgramStep :=
  match p.LoadParam (p.position + 1) m1 with
  | .error err => .returned p output (some err)
  | .ok value =>
    .recurse { p with position := p.position + 2 } { values := output.values ++ [value] }

/-- The body of `Program.Run` up to its tail call: fetch, decode with
`operation % 100`, `(operation / 100) % 10`, `(operation / 1000) % 10`, and the
`switch instruction`. -/
def Program.body (p : Program) (input : Int) (output : Output) : ProgramStep :=
  match p.Read p.position with
  | .error err => .returned p output (some err)
  | .ok operation =>
    let instruction := instructionOf operation
    let param1Mode := param1ModeOf operation
    let param2Mode := param2ModeOf operation
    if instruction = 1 then
      p.binary output goAdd param1Mode param2Mode
    else if instruction = 2 then
      p.binary output goMul param1Mode param2Mode
    else if instruction = 3 then
      p.getInput input output
    else if instruction = 4 then
      p.writeOutput output param1Mode
    else if instruction = 5 then
      p.jump output (fun value1 => decide (value1 ≠ 0)) param1Mode param2Mode
    else if instruction = 6 then
      p.jump output (fun value1 => decide (value1 = 0)) param1Mode param2Mode
    else if instruction = 7 then
      p.binary output (fun value1 value2 => if value1 < value2 then 1 else 0)
        param1Mode param2Mode
    else if instruction = 8 then
      p.binary output (fun value1 value2 => if value1 = value2 then 1 else 0)
        param1Mode param2Mode
    else if instruction = 99 then
      .returned p output none
    else
      .returned p output (some (.unknownOpcode operation))

/-- `Program.Run`, with `fuel` bounding the number of instructions: the program and the
output the call leaves and the error it returns; `none` when the fuel runs out. -/
def Program.Run : Nat → Program → Int → Output → Option (Program × Output × Option Error)
  | 0, _, _, _ => none
  | fuel + 1, p, input, output =>
    match p.body input output with
    | .recurse p1 output1 => Program.Run fuel p1 input output1
    | .returned p1 output1 err => some (p1, output1, err)

/-- `Process.Run`: the loop around `RunTilInterupt`, run for at most `iterations`
iterations, each call of `RunTilInterupt` with `fuel`; `none` when an iteration runs out
of fuel or the iterations run out. -/
def Process.Run : Nat → Nat → Process → Option Outcome
  | 0, _, _ => none
  | iterations + 1, fuel, p =>
    match p.RunTilInterupt fuel with
    | none => none
    | some .panicked => some .panicked
    | some (.returned q (some err)) => some (.returned q (some err))
    | some (.returned q none) =>
      if q.halted then some (.returned q none) else Process.Run iterations fuel q

/-- The immediate-mode "less than 8" program of the commented test in the day-5 `main`. -/
def lessThan8 : List Int := [3, 3, 1107, -1, 8, 3, 4, 3, 99]

/-! ## Fuel and memory-extension lemmas -/

theorem RunTilInterupt_add_fuel {fuel : Nat} {p : Process} {out : Outcome}
    (h : p.RunTilInterupt fuel = some out) (extra : Nat) :
    p.RunTilInterupt (fuel + extra) = some out := by
  induction fuel generalizing p with
  | zero => simp [Process.RunTilInterupt] at h
  | succ fuel ih =>
    rw [Nat.add_right_comm]
    simp only [Process.RunTilInterupt] at h ⊢
    cases hb : p.body with
    | recurse p1 => rw [hb] at h; exact ih h
    | returned p1 err => rw [hb] at h; exact h
    | panicked => rw [hb] at h; exact h

theorem Read_extend {p : Process} {position value : Int} (tail : List Int)
    (h : p.Read position = .ok value) : (p.extend tail).Read position = .ok value := by
  unfold Process.Read at h ⊢
  split at h
  · cases h
  · rename_i hr
    have hlen : (p.extend tail).memory.length = p.memory.length + tail.length := by
      simp [Process.extend]
    rw [if_neg (by rw [hlen]; push_cast; omega)]
    rw [← Except.ok.inj h]
    simp only [Process.extend]
    rw [List.getD_append _ _ _ _ (by omega)]

theorem LoadParam_extend {p : Process} {position mode value : Int} (tail : List Int)
    (h : p.LoadParam position mode = .ok value) :
    (p.extend tail).LoadParam position mode = .ok value := by
  unfold Process.LoadParam at h ⊢
  have hrb : (p.extend tail).relativeBase = p.relativeBase := rfl
  rw [hrb]
  split_ifs at h ⊢
  · cases h1 : p.Read position with
    | error e => simp [h1] at h
    | ok pointer =>
      simp only [h1] at h
      cases h2 : p.Read pointer with
      | error e => simp [h2] at h
      | ok v =>
        simp only [h2] at h
        simp only [Read_extend tail h1, Read_extend tail h2]
        exact h
  · cases h1 : p.Read position with
    | error e => simp [h1] at h
    | ok v =>
      simp only [h1] at h
      simp only [Read_extend tail h1]
      exact h
  · cases h1 : p.Read position with
    | error e => simp [h1] at h
    | ok pointer =>
      simp only [h1] at h
      cases h2 : p.Read (goAdd pointer p.relativeBase) with
      | error e => simp [h2] at h
      | ok v =>
        simp only [h2] at h
        simp only [Read_extend tail h1, Read_extend tail h2]
        exact h

theorem store_extend {p p1 : Process} {address value : Int} (tail : List Int)
    (h : p.store address value = some p1) :
    (p.extend tail).store address value = some (p1.extend tail) := by
  unfold Process.store at h ⊢
  split at h
  · rename_i hr
    have hlen : (p.extend tail).memory.length = p.memory.length + tail.length := by
      simp [Process.extend]
    rw [if_pos (by rw [hlen]; push_cast; omega)]
    rw [← Option.some.inj h]
    simp only [Process.extend, List.set_append]
    rw [if_pos (by omega)]
  · cases h

theorem Write_extend {p p1 : Process} {position value mode : Int} (tail : List Int)
    (h : p.Write position value mode = .returned p1 none) :
    (p.extend tail).Write position value mode = .returned (p1.extend tail) none := by
  unfold Process.Write at h ⊢
  have hlen : (p.extend tail).memory.length = p.memory.length + tail.length := by
    simp [Process.extend]
  have hrb : (p.extend tail).relativeBase = p.relativeBase := rfl
  split at h
  · cases h
  · rename_i hr
    rw [if_neg (by rw [hlen]; push_cast; omega)]
    have hget : (p.extend tail).memory.getD position.toNat 0 = p.memory.getD position.toNat 0 := by
      simp only [Process.extend]
      rw [List.getD_append _ _ _ _ (by omega)]
    rw [hget, hrb]
    split_ifs at h ⊢
    · cases hs : p.store (p.memory.getD position.toNat 0) value with
      | none => rw [hs] at h; cases h
      | some p2 =>
        simp only [hs, Outcome.returned.injEq, and_true] at h
        subst h
        simp only [store_extend tail hs]
    · cases hs : p.store (goAdd (p.memory.getD position.toNat 0) p.relativeBase) value with
      | none => rw [hs] at h; cases h
      | some p2 =>
        simp only [hs, Outcome.returned.injEq, and_true] at h
        subst h
        simp only [store_extend tail hs]
    · simp only [Outcome.returned.injEq, and_true] at h
      subst h
      rfl

theorem Write_in_range {p p1 : Process} {position value mode : Int} {err : Option Error}
    (h0 : 0 ≤ position) (h1 : position < p.memory.length)
    (h : p.Write position value mode = .returned p1 err) : err = none := by
  unfold Process.Write at h
  rw [if_neg (by omega)] at h
  split_ifs at h
  · cases hs : p.store (p.memory.getD position.toNat 0) value with
    | none => rw [hs] at h; cases h
    | some p2 => rw [hs] at h; cases h; rfl
  · cases hs : p.store (goAdd (p.memory.getD position.toNat 0) p.relativeBase) value with
    | none => rw [hs] at h; cases h
    | some p2 => rw [hs] at h; cases h; rfl
  · cases h; rfl

theorem binary_extend {p : Process} (f : Int → Int → Int) (m1 m2 m3 : Int) (tail : List Int)
    (h0 : 0 ≤ p.position) (h3 : p.position + 3 < p.memory.length)
    (hc : (p.binary f m1 m2 m3).clean = true) :
    (p.extend tail).binary f m1 m2 m3 = (p.binary f m1 m2 m3).extend tail := by
  unfold Process.binary at hc ⊢
  have hpos : (p.extend tail).position = p.position := rfl
  rw [hpos]
  cases h1 : p.LoadParam (p.position + 1) m1 with
  | error e => rw [h1] at hc; cases hc
  | ok value1 =>
    rw [LoadParam_extend tail h1]
    simp only [h1] at hc ⊢
    cases h2 : p.LoadParam (p.position + 2) m2 with
    | error e => rw [h2] at hc; cases hc
    | ok value2 =>
      rw [LoadParam_extend tail h2]
      simp only [h2] at hc ⊢
      cases hw : p.Write (p.position + 3) (f value1 value2) m3 with
      | panicked => rw [hw] at hc; cases hc
      | returned p1 err =>
        have he := Write_in_range (by omega) h3 hw
        subst he
        rw [Write_extend tail hw]
        rfl

theorem jump_extend {p : Process} (taken : Int → Bool) (m1 m2 : Int) (tail : List Int)
    (hc : (p.jump taken m1 m2).clean = true) :
    (p.extend tail).jump taken m1 m2 = (p.jump taken m1 m2).extend tail := by
  unfold Process.jump at hc ⊢
  have hpos : (p.extend tail).position = p.position := rfl
  rw [hpos]
  cases h1 : p.LoadParam (p.position + 1) m1 with
  | error e => rw [h1] at hc; cases hc
  | ok value1 =>
    rw [LoadParam_extend tail h1]
    simp only [h1] at hc ⊢
    split_ifs at hc ⊢
    · cases h2 : p.LoadParam (p.position + 2) m2 with
      | error e => rw [h2] at hc; cases hc
      | ok value2 =>
        rw [LoadParam_extend tail h2]
        rfl
    · rfl

theorem getInput_extend {p : Process} (m1 : Int) (tail : List Int)
    (h0 : 0 ≤ p.position) (h3 : p.position + 3 < p.memory.length)
    (hc : (p.getInput m1).clean = true) :
    (p.extend tail).getInput m1 = (p.getInput m1).extend tail := by
  unfold Process.getInput at hc ⊢
  have hpos : (p.extend tail).position = p.position := rfl
  have hin : (p.extend tail).input = p.input := rfl
  have hip : (p.extend tail).inputPointer = p.inputPointer := rfl
  rw [hpos, hin, hip]
  split_ifs at hc ⊢
  · rfl
  · cases hw : p.Write (p.position + 1) (p.input.getD p.inputPointer.toNat 0) m1 with
    | panicked => rw [hw] at hc; cases hc
    | returned p1 err =>
      have he := Write_in_range (by omega) (by omega) hw
      subst he
      rw [Write_extend tail hw]
      rfl
  · cases hc

theorem writeOutput_extend {p : Process} (m1 : Int) (tail : List Int)
    (hc : (p.writeOutput m1).clean = true) :
    (p.extend tail).writeOutput m1 = (p.writeOutput m1).extend tail := by
  unfold Process.writeOutput at hc ⊢
  have hpos : (p.extend tail).position = p.position := rfl
  rw [hpos]
  cases h1 : p.LoadParam (p.position + 1) m1 with
  | error e => rw [h1] at hc; cases hc
  | ok value1 =>
    rw [LoadParam_extend tail h1]
    rfl

theorem adjustRelativeBase_extend {p : Process} (m1 : Int) (tail : List Int)
    (hc : (p.adjustRelativeBase m1).clean = true) :
    (p.extend tail).adjustRelativeBase m1 = (p.adjustRelativeBase m1).extend tail := by
  unfold Process.adjustRelativeBase at hc ⊢
  have hpos : (p.extend tail).position = p.position := rfl
  rw [hpos]
  cases h1 : p.LoadParam (p.position + 1) m1 with
  | error e => rw [h1] at hc; cases hc
  | ok value1 =>
    rw [LoadParam_extend tail h1]
    rfl

/-- Case analysis on the `switch` of `RunTilInterupt`, for two processes at once: a
relation that holds between the two processes on every case, given the value of
`operation % 100` that selects the case, holds between their dispatches. -/
theorem dispatch_rel (p q : Process) (operation : Int) (R : Step → Step → Prop)
    (hbinary : instructionOf operation = 1 ∨ instructionOf operation = 2 ∨
        instructionOf operation = 7 ∨ instructionOf operation = 8 →
      ∀ f m1 m2 m3, R (p.binary f m1 m2 m3) (q.binary f m1 m2 m3))
    (hgetInput : instructionOf operation = 3 → ∀ m1, R (p.getInput m1) (q.getInput m1))
    (hwriteOutput : instructionOf operation = 4 →
      ∀ m1, R (p.writeOutput m1) (q.writeOutput m1))
    (hjump : instructionOf operation = 5 ∨ instructionOf operation = 6 →
      ∀ taken m1 m2, R (p.jump taken m1 m2) (q.jump taken m1 m2))
    (hadjust : instructionOf operation = 9 →
      ∀ m1, R (p.adjustRelativeBase m1) (q.adjustRelativeBase m1))
    (hhalt : instructionOf operation = 99 →
      R (.returned { p with halted := true } none) (.returned { q with halted := true } none))
    (hunknown : instructionOf operation ≠ 3 →
      R (.returned p (some (.unknownOpcode operation)))
        (.returned q (some (.unknownOpcode operation)))) :
    R (p.dispatch operation) (q.dispatch operation) := by
  unfold Process.dispatch
  dsimp only
  by_cases h1 : instructionOf operation = 1
  · simp only [if_pos h1]; exact hbinary (Or.inl h1) _ _ _ _
  simp only [if_neg h1]
  by_cases h2 : instructionOf operation = 2
  · simp only [if_pos h2]; exact hbinary (Or.inr (Or.inl h2)) _ _ _ _
  simp only [if_neg h2]
  by_cases h3 : instructionOf operation = 3
  · simp only [if_pos h3]; exact hgetInput h3 _
  simp only [if_neg h3]
  by_cases h4 : instructionOf operation = 4
  · simp only [if_pos h4]; exact hwriteOutput h4 _
  simp only [if_neg h4]
  by_cases h5 : instructionOf operation = 5
  · simp only [if_pos h5]; exact hjump (Or.inl h5) _ _ _
  simp only [if_neg h5]
  by_cases h6 : instructionOf operation = 6
  · simp only [if_pos h6]; exact hjump (Or.inr h6) _ _ _
  simp only [if_neg h6]
  by_cases h7 : instructionOf operation = 7
  · simp only [if_pos h7]; exact hbinary (Or.inr (Or.inr (Or.inl h7))) _ _ _ _
  simp only [if_neg h7]
  by_cases h8 : instructionOf operation = 8
  · simp only [if_pos h8]; exact hbinary (Or.inr (Or.inr (Or.inr h8))) _ _ _ _
  simp only [if_neg h8]
  by_cases h9 : instructionOf operation = 9
  · simp only [if_pos h9]; exact hadjust h9 _
  simp only [if_neg h9]
  by_cases h99 : instructionOf operation = 99
  · simp only [if_pos h99]; exact hhalt h99
  simp only [if_neg h99]; exact hunknown h3

theorem dispatch_extend {p : Process} (operation : Int) (tail : List Int)
    (h0 : 0 ≤ p.position) (h3 : p.position + 3 < p.memory.length)
    (hc : (p.dispatch operation).clean = true) :
    (p.extend tail).dispatch operation = (p.dispatch operation).extend tail := by
  revert hc
  refine dispatch_rel p (p.extend tail) operation
    (fun s s1 => s.clean = true → s1 = s.extend tail) ?_ ?_ ?_ ?_ ?_ ?_ ?_
  · intro _ f m1 m2 m3 hc; exact binary_extend _ _ _ _ tail h0 h3 hc
  · intro _ m1 hc; exact getInput_extend _ tail h0 h3 hc
  · intro _ m1 hc; exact writeOutput_extend _ tail hc
  · intro _ taken m1 m2 hc; exact jump_extend _ _ _ tail hc
  · intro _ m1 hc; exact adjustRelativeBase_extend _ tail hc
  · intro _ _; rfl
  · intro _ hc; cases hc

theorem body_extend {p : Process} (tail : List Int)
    (h0 : 0 ≤ p.position) (h3 : p.position + 3 < p.memory.length)
    (hc : p.body.clean = true) :
    (p.extend tail).body = p.body.extend tail := by
  unfold Process.body at hc ⊢
  have hpos : (p.extend tail).position = p.position := rfl
  rw [hpos]
  cases h1 : p.Read p.position with
  | error e => rw [h1] at hc; cases hc
  | ok operation =>
    rw [Read_extend tail h1]
    simp only [h1] at hc ⊢
    exact dispatch_extend operation tail h0 h3 hc

theorem RunTilInterupt_extend {fuel : Nat} {p q : Process} (tail : List Int)
    (hroom : p.roomy fuel = true)
    (h : p.RunTilInterupt fuel = some (.returned q none)) :
    (p.extend tail).RunTilInterupt fuel = some (.returned (q.extend tail) none) := by
  induction fuel generalizing p with
  | zero => simp [Process.RunTilInterupt] at h
  | succ fuel ih =>
    simp only [Process.roomy, Bool.and_eq_true, decide_eq_true_eq] at hroom
    obtain ⟨⟨h0, h3⟩, hrest⟩ := hroom
    simp only [Process.RunTilInterupt] at h ⊢
    cases hb : p.body with
    | recurse p1 =>
      rw [hb] at h hrest
      rw [body_extend tail h0 h3 (by rw [hb]; rfl), hb]
      exact ih hrest h
    | returned p1 err =>
      rw [hb] at h
      simp only [Option.some.injEq, Outcome.returned.injEq] at h
      obtain ⟨rfl, rfl⟩ := h
      rw [body_extend tail h0 h3 (by rw [hb]; rfl), hb]
      rfl
    | panicked => rw [hb] at h; cases h

/-! ## Runs of concrete programs -/

theorem NewProcess_eq_extend (code input : List Int) (pad : Nat) (h : pad ≤ headroom) :
    NewProcess code input =
      (padded code pad input).extend (List.replicate (headroom - pad) 0) := by
  unfold NewProcess padded Process.extend
  simp only [List.append_assoc, ← List.replicate_add]
  rw [Nat.add_sub_cancel' h]

theorem equals8_padded (x : Int) :
    (padded equals8 3 [x]).RunTilInterupt 4 = some (.returned
      { memory := [3, 9, 8, 9, 10, 9, 4, 9, 99, if x = 8 then 1 else 0, 8, 0, 0, 0]
        position := 8
        output := [if x = 8 then 1 else 0]
        input := [x]
        inputPointer := 1
        outputPointer := 0
        relativeBase := 0
        halted := true } none) ∧ (padded equals8 3 [x]).roomy 4 = true :=
  ⟨rfl, rfl⟩

/-- C1: for every integer `x`, `NewProcess([3,9,8,9,10,9,4,9,99,-1,8], [x])` run with
`RunTilInterupt` returns (after four instructions) with a nil error, `halted = true`
and output log `[1]` when `x = 8`, `[0]` otherwise. -/
theorem C1_equals8_output (x : Int) :
    ∃ q, (NewProcess [3, 9, 8, 9, 10, 9, 4, 9, 99, -1, 8] [x]).RunTilInterupt 4
        = some (.returned q none) ∧
      q.halted = true ∧ q.output = (if x = 8 then [1] else [0]) := by
  obtain ⟨hrun, hroom⟩ := equals8_padded x
  have hext := RunTilInterupt_extend (List.replicate (headroom - 3) 0) hroom hrun
  rw [← NewProcess_eq_extend _ _ 3 (by decide)] at hext
  refine ⟨_, hext, rfl, ?_⟩
  show [if x = 8 then (1 : Int) else 0] = _
  split <;> rfl

set_option maxRecDepth 1000000 in
theorem quine_padded :
    (padded quine 86 []).RunTilInterupt 81 = some (.returned quineFinal none) ∧
      (padded quine 86 []).roomy 81 = true :=
  ⟨rfl, rfl⟩

/-- C2: `NewProcess(Q, [])` for the sixteen-cell program `Q = quine` run with
`RunTilInterupt` returns with a nil error, halted, with output log equal to `Q`; the run
went through the zero-initialised cells 100 and 101 beyond the program (they end as 16
and 1) and moved the relative base to 16. -/
theorem C2_quine_outputs_itself :
    ∃ q, (NewProcess quine []).RunTilInterupt 81 = some (.returned q none) ∧
      q.halted = true ∧ q.output = quine ∧ quine.length = 16 ∧
      q.memory.getD 100 0 = 16 ∧ q.memory.getD 101 0 = 1 ∧ q.relativeBase = 16 := by
  obtain ⟨hrun, hroom⟩ := quine_padded
  have hext := RunTilInterupt_extend (List.replicate (headroom - 86) 0) hroom hrun
  rw [← NewProcess_eq_extend _ _ 86 (by decide)] at hext
  refine ⟨_, hext, rfl, rfl, rfl, ?_, ?_, rfl⟩
  · show (quineFinal.memory ++ _).getD 100 0 = 16
    rw [List.getD_append _ _ _ 100 (by decide)]
    rfl
  · show (quineFinal.memory ++ _).getD 101 0 = 1
    rw [List.getD_append _ _ _ 101 (by decide)]
    rfl

/-! ## Single instructions -/

theorem wrap64_of_range {z : Int} (h0 : -2 ^ 63 ≤ z) (h1 : z < 2 ^ 63) : wrap64 z = z := by
  unfold wrap64
  norm_num at h0 h1 ⊢
  omega

theorem Read_in_range {p : Process} {position : Int}
    (h0 : 0 ≤ position) (h1 : position < p.memory.length) :
    p.Read position = .ok (p.memory.getD position.toNat 0) := by
  unfold Process.Read
  rw [if_neg (by omega)]

theorem body_in_range {p : Process}
    (h0 : 0 ≤ p.position) (h1 : p.position < p.memory.length) :
    p.body = p.dispatch (p.memory.getD p.position.toNat 0) := by
  unfold Process.body
  rw [Read_in_range h0 h1]

theorem dispatch_add {p : Process} {operation : Int} (h : instructionOf operation = 1) :
    p.dispatch operation = p.binary goAdd (param1ModeOf operation) (param2ModeOf operation)
      (param3ModeOf operation) := by
  simp only [Process.dispatch, h]
  rfl

theorem dispatch_multiply {p : Process} {operation : Int} (h : instructionOf operation = 2) :
    p.dispatch operation = p.binary goMul (param1ModeOf operation) (param2ModeOf operation)
      (param3ModeOf operation) := by
  simp only [Process.dispatch, h]
  rfl

theorem dispatch_getInput {p : Process} {operation : Int} (h : instructionOf operation = 3) :
    p.dispatch operation = p.getInput (param1ModeOf operation) := by
  simp only [Process.dispatch, h]
  rfl

theorem dispatch_lessThan {p : Process} {operation : Int} (h : instructionOf operation = 7) :
    p.dispatch operation = p.binary (fun value1 value2 => if value1 < value2 then 1 else 0)
      (param1ModeOf operation) (param2ModeOf operation) (param3ModeOf operation) := by
  simp only [Process.dispatch, h]
  rfl

theorem dispatch_equals {p : Process} {operation : Int} (h : instructionOf operation = 8) :
    p.dispatch operation = p.binary (fun value1 value2 => if value1 = value2 then 1 else 0)
      (param1ModeOf operation) (param2ModeOf operation) (param3ModeOf operation) := by
  simp only [Process.dispatch, h]
  rfl

theorem Write_resolved {p : Process} {position mode : Int} (value : Int)
    (h0 : 0 ≤ position) (h1 : position < p.memory.length) (hm : mode = 0 ∨ mode = 2)
    (hd0 : 0 ≤ p.destination position mode)
    (hd1 : p.destination position mode < p.memory.length) :
    p.Write position value mode = .returned
      { p with memory := p.memory.set (p.destination position mode).toNat value } none := by
  unfold Process.Write
  rw [if_neg (by omega)]
  rcases hm with rfl | rfl
  · have hd : p.destination position 0 = p.memory.getD position.toNat 0 := rfl
    rw [hd] at hd0 hd1 ⊢
    simp only [Process.store, if_pos (And.intro hd0 hd1), if_true]
  · have hd : p.destination position 2 =
        goAdd (p.memory.getD position.toNat 0) p.relativeBase := rfl
    rw [hd] at hd0 hd1 ⊢
    rw [if_neg (by decide), if_pos rfl]
    simp only [Process.store, if_pos (And.intro hd0 hd1)]

theorem getInput_available {p : Process} {m1 : Int}
    (h0 : 0 ≤ p.position) (h1 : p.position + 1 < p.memory.length)
    (hm : m1 = 0 ∨ m1 = 2)
    (hd0 : 0 ≤ p.destination (p.position + 1) m1)
    (hd1 : p.destination (p.position + 1) m1 < p.memory.length)
    (hi0 : 0 ≤ p.inputPointer) (hi1 : p.inputPointer < p.input.length) :
    p.getInput m1 = .recurse
      { p with
        memory := p.memory.set (p.destination (p.position + 1) m1).toNat
          (p.input.getD p.inputPointer.toNat 0)
        inputPointer := p.inputPointer + 1
        position := p.position + 2 } := by
  unfold Process.getInput
  rw [if_neg (by omega), if_pos ⟨hi0, hi1⟩, Write_resolved _ (by omega) h1 hm hd0 hd1]

/-- C3: a process whose pointer is in range, whose instruction word there has
`W % 100 = 3` and whose input is fully consumed (`inputPointer = len(input)`) returns
from `RunTilInterupt` with a nil error and with every field as it was. -/
theorem C3_input_starved_returns_unchanged (p : Process) (fuel : Nat)
    (h0 : 0 ≤ p.position) (h1 : p.position < p.memory.length)
    (hW : instructionOf (p.memory.getD p.position.toNat 0) = 3)
    (hin : p.inputPointer = p.input.length) :
    p.RunTilInterupt (fuel + 1) = some (.returned p none) := by
  simp only [Process.RunTilInterupt, body_in_range h0 h1, dispatch_getInput hW,
    Process.getInput, if_pos hin]

/-- C3 at the two-cell program `[3, 0]` with no input. -/
theorem C3_input_starved_witness :
    (0 : Int) ≤ (padded [3, 0] 0 []).position ∧
      (padded [3, 0] 0 []).RunTilInterupt 1 = some (.returned (padded [3, 0] 0 []) none) :=
  ⟨by decide, C3_input_starved_returns_unchanged (padded [3, 0] 0 []) 0
    (by decide) (by decide) (by decide) (by decide)⟩

/-! ## What one instruction changes -/

theorem store_frame {p p1 : Process} {address value : Int}
    (h : p.store address value = some p1) :
    p1 = { p with memory := p1.memory } ∧ p1.memory.length = p.memory.length := by
  unfold Process.store at h
  split at h
  · cases h
    exact ⟨rfl, List.length_set _ _ _⟩
  · cases h

theorem Write_frame {p p1 : Process} {position value mode : Int} {err : Option Error}
    (h : p.Write position value mode = .returned p1 err) :
    p1 = { p with memory := p1.memory } ∧ p1.memory.length = p.memory.length := by
  unfold Process.Write at h
  split_ifs at h
  · cases h; exact ⟨rfl, rfl⟩
  · cases hs : p.store (p.memory.getD position.toNat 0) value with
    | none => rw [hs] at h; cases h
    | some p2 => rw [hs] at h; cases h; exact store_frame hs
  · cases hs : p.store (goAdd (p.memory.getD position.toNat 0) p.relativeBase) value with
    | none => rw [hs] at h; cases h
    | some p2 => rw [hs] at h; cases h; exact store_frame hs
  · cases h; exact ⟨rfl, rfl⟩

theorem binary_recurse {p p1 : Process} {f : Int → Int → Int} {m1 m2 m3 : Int}
    (h : p.binary f m1 m2 m3 = .recurse p1) :
    p1 = { p with memory := p1.memory, position := p.position + 4 } ∧
      p1.memory.length = p.memory.length := by
  unfold Process.binary at h
  cases h1 : p.LoadParam (p.position + 1) m1 with
  | error e => rw [h1] at h; cases h
  | ok value1 =>
    simp only [h1] at h
    cases h2 : p.LoadParam (p.position + 2) m2 with
    | error e => rw [h2] at h; cases h
    | ok value2 =>
      simp only [h2] at h
      cases hw : p.Write (p.position + 3) (f value1 value2) m3 with
      | panicked => rw [hw] at h; cases h
      | returned p2 err =>
        obtain ⟨hp2, hlen⟩ := Write_frame hw
        rw [hw] at h
        cases h
        refine ⟨?_, hlen⟩
        rw [hp2]

theorem binary_returned {p q : Process} {f : Int → Int → Int} {m1 m2 m3 : Int}
    {err : Option Error} (h : p.binary f m1 m2 m3 = .returned q err) :
    q = p ∧ err ≠ none := by
  unfold Process.binary at h
  cases h1 : p.LoadParam (p.position + 1) m1 with
  | error e => rw [h1] at h; cases h; exact ⟨rfl, by simp⟩
  | ok value1 =>
    simp only [h1] at h
    cases h2 : p.LoadParam (p.position + 2) m2 with
    | error e => rw [h2] at h; cases h; exact ⟨rfl, by simp⟩
    | ok value2 =>
      simp only [h2] at h
      cases hw : p.Write (p.position + 3) (f value1 value2) m3 with
      | panicked => rw [hw] at h; cases h
      | returned p2 err => rw [hw] at h; cases h

theorem getInput_recurse {p p1 : Process} {m1 : Int} (h : p.getInput m1 = .recurse p1) :
    p1 = { p with memory := p1.memory, inputPointer := p.inputPointer + 1,
                  position := p.position + 2 } ∧
      p1.memory.length = p.memory.length ∧
      0 ≤ p.inputPointer ∧ p.inputPointer < p.input.length := by
  unfold Process.getInput at h
  split_ifs at h with h1 h2
  cases hw : p.Write (p.position + 1) (p.input.getD p.inputPointer.toNat 0) m1 with
  | panicked => rw [hw] at h; cases h
  | returned p2 err =>
    obtain ⟨hp2, hlen⟩ := Write_frame hw
    rw [hw] at h
    cases h
    refine ⟨?_, hlen, h2.1, h2.2⟩
    rw [hp2]

theorem getInput_returned {p q : Process} {m1 : Int} {err : Option Error}
    (h : p.getInput m1 = .returned q err) :
    q = p ∧ err = none ∧ p.inputPointer = p.input.length := by
  unfold Process.getInput at h
  split_ifs at h with h1 h2
  · cases h; exact ⟨rfl, rfl, h1⟩
  · cases hw : p.Write (p.position + 1) (p.input.getD p.inputPointer.toNat 0) m1 with
    | panicked => rw [hw] at h; cases h
    | returned p2 err => rw [hw] at h; cases h

theorem writeOutput_recurse {p p1 : Process} {m1 : Int} (h : p.writeOutput m1 = .recurse p1) :
    ∃ value, p.LoadParam (p.position + 1) m1 = .ok value ∧
      p1 = { p with output := p.output ++ [value], position := p.position + 2 } := by
  unfold Process.writeOutput at h
  cases h1 : p.LoadParam (p.position + 1) m1 with
  | error e => rw [h1] at h; cases h
  | ok value => rw [h1] at h; cases h; exact ⟨value, rfl, rfl⟩

theorem writeOutput_returned {p q : Process} {m1 : Int} {err : Option Error}
    (h : p.writeOutput m1 = .returned q err) : q = p ∧ err ≠ none := by
  unfold Process.writeOutput at h
  cases h1 : p.LoadParam (p.position + 1) m1 with
  | error e => rw [h1] at h; cases h; exact ⟨rfl, by simp⟩
  | ok value => rw [h1] at h; cases h

theorem adjustRelativeBase_recurse {p p1 : Process} {m1 : Int}
    (h : p.adjustRelativeBase m1 = .recurse p1) :
    ∃ value, p.LoadParam (p.position + 1) m1 = .ok value ∧
      p1 = { p with relativeBase := goAdd p.relativeBase value, position := p.position + 2 } := by
  unfold Process.adjustRelativeBase at h
  cases h1 : p.LoadParam (p.position + 1) m1 with
  | error e => rw [h1] at h; cases h
  | ok value => rw [h1] at h; cases h; exact ⟨value, rfl, rfl⟩

theorem adjustRelativeBase_returned {p q : Process} {m1 : Int} {err : Option Error}
    (h : p.adjustRelativeBase m1 = .returned q err) : q = p ∧ err ≠ none := by
  unfold Process.adjustRelativeBase at h
  cases h1 : p.LoadParam (p.position + 1) m1 with
  | error e => rw [h1] at h; cases h; exact ⟨rfl, by simp⟩
  | ok value => rw [h1] at h; cases h

theorem jump_recurse {p p1 : Process} {taken : Int → Bool} {m1 m2 : Int}
    (h : p.jump taken m1 m2 = .recurse p1) :
    ∃ target, p1 = { p with position := target } := by
  unfold Process.jump at h
  cases h1 : p.LoadParam (p.position + 1) m1 with
  | error e => rw [h1] at h; cases h
  | ok value1 =>
    simp only [h1] at h
    split_ifs at h
    · cases h2 : p.LoadParam (p.position + 2) m2 with
      | error e => rw [h2] at h; cases h
      | ok value2 => rw [h2] at h; cases h; exact ⟨value2, rfl⟩
    · cases h; exact ⟨_, rfl⟩

theorem jump_returned {p q : Process} {taken : Int → Bool} {m1 m2 : Int} {err : Option Error}
    (h : p.jump taken m1 m2 = .returned q err) : q = p ∧ err ≠ none := by
  unfold Process.jump at h
  cases h1 : p.LoadParam (p.position + 1) m1 with
  | error e => rw [h1] at h; cases h; exact ⟨rfl, by simp⟩
  | ok value1 =>
    simp only [h1] at h
    split_ifs at h
    · cases h2 : p.LoadParam (p.position + 2) m2 with
      | error e => rw [h2] at h; cases h; exact ⟨rfl, by simp⟩
      | ok value2 => rw [h2] at h; cases h

/-! ## Runs and single steps -/

theorem Runs_recurse {p p1 : Process} (h : p.body = .recurse p1) (out : Outcome) :
    p.Runs out ↔ p1.Runs out := by
  constructor
  · rintro ⟨fuel, hf⟩
    cases fuel with
    | zero => simp [Process.RunTilInterupt] at hf
    | succ fuel =>
      simp only [Process.RunTilInterupt, h] at hf
      exact ⟨fuel, hf⟩
  · rintro ⟨fuel, hf⟩
    refine ⟨fuel + 1, ?_⟩
    simp only [Process.RunTilInterupt, h]
    exact hf

theorem Runs_returned {p q : Process} {err : Option Error} (h : p.body = .returned q err)
    (out : Outcome) : p.Runs out ↔ out = .returned q err := by
  constructor
  · rintro ⟨fuel, hf⟩
    cases fuel with
    | zero => simp [Process.RunTilInterupt] at hf
    | succ fuel =>
      simp only [Process.RunTilInterupt, h, Option.some.injEq] at hf
      exact hf.symm
  · rintro rfl
    refine ⟨1, ?_⟩
    simp only [Process.RunTilInterupt, h]

theorem Runs_panicked {p : Process} (h : p.body = .panicked) (out : Outcome) :
    p.Runs out ↔ out = .panicked := by
  constructor
  · rintro ⟨fuel, hf⟩
    cases fuel with
    | zero => simp [Process.RunTilInterupt] at hf
    | succ fuel =>
      simp only [Process.RunTilInterupt, h, Option.some.injEq] at hf
      exact hf.symm
  · rintro rfl
    refine ⟨1, ?_⟩
    simp only [Process.RunTilInterupt, h]

theorem Read_ok {p : Process} {position value : Int} (h : p.Read position = .ok value) :
    0 ≤ position ∧ position < p.memory.length ∧ value = p.memory.getD position.toNat 0 := by
  unfold Process.Read at h
  split at h
  · cases h
  · rename_i hr
    cases h
    exact ⟨by omega, by omega, rfl⟩

theorem dispatch_halt {p : Process} {operation : Int} (h : instructionOf operation = 99) :
    p.dispatch operation = .returned { p with halted := true } none := by
  simp only [Process.dispatch, h]
  rfl

theorem body_returned {p q : Process} {err : Option Error} (h : p.body = .returned q err) :
    q = p ∨ (0 ≤ p.position ∧ p.position < p.memory.length ∧
      instructionOf (p.memory.getD p.position.toNat 0) = 99 ∧
      q = { p with halted := true } ∧ err = none) := by
  unfold Process.body at h
  cases hr : p.Read p.position with
  | error e => rw [hr] at h; cases h; exact Or.inl rfl
  | ok operation =>
    obtain ⟨h0, h1, rfl⟩ := Read_ok hr
    simp only [hr] at h
    revert h
    refine dispatch_rel p p _ (fun s _ => s = .returned q err → _) ?_ ?_ ?_ ?_ ?_ ?_ ?_
    · intro _ f m1 m2 m3 h; exact Or.inl (binary_returned h).1
    · intro _ m1 h; exact Or.inl (getInput_returned h).1
    · intro _ m1 h; exact Or.inl (writeOutput_returned h).1
    · intro _ taken m1 m2 h; exact Or.inl (jump_returned h).1
    · intro _ m1 h; exact Or.inl (adjustRelativeBase_returned h).1
    · intro h99 h; cases h; exact Or.inr ⟨h0, h1, h99, rfl, rfl⟩
    · intro _ h; cases h; exact Or.inl rfl

/-- A state in which the body of `RunTilInterupt` returned is a state in which it returns
again, with the same result and no change. -/
theorem body_returned_fixed {p q : Process} {err : Option Error}
    (h : p.body = .returned q err) : q.body = .returned q err := by
  rcases body_returned h with rfl | ⟨h0, h1, h99, rfl, rfl⟩
  · exact h
  · have hb : ({ p with halted := true } : Process).body =
        ({ p with halted := true } : Process).dispatch (p.memory.getD p.position.toNat 0) :=
      body_in_range (p := { p with halted := true }) h0 h1
    rw [hb, dispatch_halt h99]

/-- C6: if `RunTilInterupt` from `s` returns `r` in state `s'`, then a second call from
`s'`, with no `AddInput` in between, ends within its first instruction (no tail call),
returns the same `r` and leaves every field of `s'` as it was. -/
theorem C6_RunTilInterupt_idempotent (s s' : Process) (r : Option Error) (fuel : Nat)
    (h : s.RunTilInterupt fuel = some (.returned s' r)) :
    s'.body = .returned s' r ∧
      ∀ fuel', s'.RunTilInterupt (fuel' + 1) = some (.returned s' r) := by
  have hfix : s'.body = .returned s' r := by
    induction fuel generalizing s with
    | zero => simp [Process.RunTilInterupt] at h
    | succ fuel ih =>
      simp only [Process.RunTilInterupt] at h
      cases hb : s.body with
      | recurse p1 => rw [hb] at h; exact ih p1 h
      | returned p1 err =>
        rw [hb] at h
        simp only [Option.some.injEq, Outcome.returned.injEq] at h
        obtain ⟨rfl, rfl⟩ := h
        exact body_returned_fixed hb
      | panicked => rw [hb] at h; cases h
  refine ⟨hfix, fun fuel' => ?_⟩
  simp only [Process.RunTilInterupt, hfix]

/-- C6 at the one-cell program `[99]`: the first call halts, every later call returns nil
in the halted state. -/
theorem C6_RunTilInterupt_idempotent_witness :
    (padded [99] 0 []).RunTilInterupt 1 =
        some (.returned { padded [99] 0 [] with halted := true } none) ∧
      ∀ fuel', ({ padded [99] 0 [] with halted := true } : Process).RunTilInterupt (fuel' + 1)
        = some (.returned { padded [99] 0 [] with halted := true } none) :=
  ⟨by decide, (C6_RunTilInterupt_idempotent (padded [99] 0 [])
    { padded [99] 0 [] with halted := true } none 1 (by decide)).2⟩

/-! ## Supplying more input -/

theorem AddInputs_eq_supply (p : Process) (vals : List Int) :
    p.AddInputs vals = p.supply vals := by
  unfold Process.AddInputs
  induction vals generalizing p with
  | nil => simp [Process.supply]
  | cons v vs ih =>
    rw [List.foldl_cons, ih]
    simp [Process.supply, Process.AddInput]

theorem NewProcess_append (code i1 i2 : List Int) :
    NewProcess code (i1 ++ i2) = (NewProcess code i1).supply i2 := rfl

theorem Write_supply (p : Process) (position value mode : Int) (vals : List Int) :
    (p.supply vals).Write position value mode =
      (p.Write position value mode).map (fun q => q.supply vals) := by
  unfold Process.Write
  have hm : (p.supply vals).memory = p.memory := rfl
  have hrb : (p.supply vals).relativeBase = p.relativeBase := rfl
  rw [hm, hrb]
  split_ifs
  · rfl
  · unfold Process.store
    rw [hm]
    split_ifs <;> rfl
  · unfold Process.store
    rw [hm]
    split_ifs <;> rfl
  · rfl

theorem binary_supply (p : Process) (f : Int → Int → Int) (m1 m2 m3 : Int) (vals : List Int) :
    (p.supply vals).binary f m1 m2 m3 = (p.binary f m1 m2 m3).map (fun q => q.supply vals) := by
  unfold Process.binary
  have hpos : (p.supply vals).position = p.position := rfl
  have hl : ∀ a b, (p.supply vals).LoadParam a b = p.LoadParam a b := fun _ _ => rfl
  rw [hpos, hl, hl]
  cases h1 : p.LoadParam (p.position + 1) m1 with
  | error e => rfl
  | ok value1 =>
    cases h2 : p.LoadParam (p.position + 2) m2 with
    | error e => rfl
    | ok value2 =>
      simp only [Write_supply]
      cases hw : p.Write (p.position + 3) (f value1 value2) m3 with
      | panicked => rfl
      | returned p2 err => rfl

theorem jump_supply (p : Process) (taken : Int → Bool) (m1 m2 : Int) (vals : List Int) :
    (p.supply vals).jump taken m1 m2 = (p.jump taken m1 m2).map (fun q => q.supply vals) := by
  unfold Process.jump
  have hpos : (p.supply vals).position = p.position := rfl
  have hl : ∀ a b, (p.supply vals).LoadParam a b = p.LoadParam a b := fun _ _ => rfl
  rw [hpos, hl, hl]
  cases h1 : p.LoadParam (p.position + 1) m1 with
  | error e => rfl
  | ok value1 =>
    dsimp only
    split_ifs
    · cases h2 : p.LoadParam (p.position + 2) m2 with
      | error e => rfl
      | ok value2 => rfl
    · rfl

theorem writeOutput_supply (p : Process) (m1 : Int) (vals : List Int) :
    (p.supply vals).writeOutput m1 = (p.writeOutput m1).map (fun q => q.supply vals) := by
  unfold Process.writeOutput
  have hpos : (p.supply vals).position = p.position := rfl
  have hl : ∀ a b, (p.supply vals).LoadParam a b = p.LoadParam a b := fun _ _ => rfl
  rw [hpos, hl]
  cases h1 : p.LoadParam (p.position + 1) m1 with
  | error e => rfl
  | ok value1 => rfl

theorem adjustRelativeBase_supply (p : Process) (m1 : Int) (vals : List Int) :
    (p.supply vals).adjustRelativeBase m1 =
      (p.adjustRelativeBase m1).map (fun q => q.supply vals) := by
  unfold Process.adjustRelativeBase
  have hpos : (p.supply vals).position = p.position := rfl
  have hl : ∀ a b, (p.supply vals).LoadParam a b = p.LoadParam a b := fun _ _ => rfl
  rw [hpos, hl]
  cases h1 : p.LoadParam (p.position + 1) m1 with
  | error e => rfl
  | ok value1 => rfl

theorem getInput_supply (p : Process) (m1 : Int) (vals : List Int)
    (hi0 : 0 ≤ p.inputPointer) (hi1 : p.inputPointer < p.input.length) :
    (p.supply vals).getInput m1 = (p.getInput m1).map (fun q => q.supply vals) := by
  unfold Process.getInput
  have hpos : (p.supply vals).position = p.position := rfl
  have hip : (p.supply vals).inputPointer = p.inputPointer := rfl
  have hin : (p.supply vals).input = p.input ++ vals := rfl
  rw [hpos, hip, hin]
  have hlen : ((p.input ++ vals).length : Int) = p.input.length + vals.length := by
    simp
  have e1 : ¬ (p.inputPointer = ((p.input ++ vals).length : Int)) := by omega
  have e2 : ¬ (p.inputPointer = (p.input.length : Int)) := by omega
  have e3 : 0 ≤ p.inputPointer ∧ p.inputPointer < ((p.input ++ vals).length : Int) :=
    ⟨hi0, by omega⟩
  simp only [if_neg e1, if_neg e2, if_pos e3, if_pos (And.intro hi0 hi1)]
  rw [List.getD_append _ _ _ _ (by omega), Write_supply]
  cases hw : p.Write (p.position + 1) (p.input.getD p.inputPointer.toNat 0) m1 with
  | panicked => rfl
  | returned p2 err => rfl

theorem starved_body {p : Process} (h : p.starved) : p.body = .returned p none := by
  obtain ⟨h0, h1, h3, hin⟩ := h
  rw [body_in_range h0 h1, dispatch_getInput h3]
  unfold Process.getInput
  rw [if_pos hin]

theorem body_supply {p : Process} (vals : List Int) (hc : p.cursorOK) (hs : ¬ p.starved) :
    (p.supply vals).body = p.body.map (fun q => q.supply vals) := by
  unfold Process.body
  have hpos : (p.supply vals).position = p.position := rfl
  have hr : ∀ a, (p.supply vals).Read a = p.Read a := fun _ => rfl
  rw [hpos, hr]
  cases hread : p.Read p.position with
  | error e => rfl
  | ok operation =>
    obtain ⟨h0, h1, rfl⟩ := Read_ok hread
    dsimp only
    refine dispatch_rel p (p.supply vals) _ (fun s s1 => s1 = s.map _) ?_ ?_ ?_ ?_ ?_ ?_ ?_
    · intro _ f m1 m2 m3; exact binary_supply _ _ _ _ _ _
    · intro h3 m1
      have hne : p.inputPointer ≠ p.input.length := fun h => hs ⟨h0, h1, h3, h⟩
      exact getInput_supply _ _ _ hc.1 (lt_of_le_of_ne hc.2 hne)
    · intro _ m1; exact writeOutput_supply _ _ _
    · intro _ taken m1 m2; exact jump_supply _ _ _ _ _
    · intro _ m1; exact adjustRelativeBase_supply _ _ _
    · intro _; rfl
    · intro _; rfl

/-- What the tail call of `RunTilInterupt` is made on, by the kind of instruction. -/
theorem body_recurse {p p1 : Process} (h : p.body = .recurse p1) :
    0 ≤ p.position ∧ p.position < p.memory.length ∧
    (((instructionOf (p.memory.getD p.position.toNat 0) = 1 ∨
        instructionOf (p.memory.getD p.position.toNat 0) = 2 ∨
        instructionOf (p.memory.getD p.position.toNat 0) = 7 ∨
        instructionOf (p.memory.getD p.position.toNat 0) = 8) ∧
        p1 = { p with memory := p1.memory, position := p.position + 4 } ∧
        p1.memory.length = p.memory.length) ∨
      (instructionOf (p.memory.getD p.position.toNat 0) = 3 ∧
        p1 = { p with memory := p1.memory, inputPointer := p.inputPointer + 1,
                      position := p.position + 2 } ∧
        p1.memory.length = p.memory.length ∧
        0 ≤ p.inputPointer ∧ p.inputPointer < p.input.length) ∨
      (instructionOf (p.memory.getD p.position.toNat 0) = 4 ∧
        ∃ value, p1 = { p with output := p.output ++ [value], position := p.position + 2 }) ∨
      ((instructionOf (p.memory.getD p.position.toNat 0) = 5 ∨
        instructionOf (p.memory.getD p.position.toNat 0) = 6) ∧
        ∃ target, p1 = { p with position := target }) ∨
      (instructionOf (p.memory.getD p.position.toNat 0) = 9 ∧
        ∃ value, p1 = { p with relativeBase := goAdd p.relativeBase value,
                               position := p.position + 2 })) := by
  unfold Process.body at h
  cases hr : p.Read p.position with
  | error e => rw [hr] at h; cases h
  | ok operation =>
    obtain ⟨h0, h1, rfl⟩ := Read_ok hr
    simp only [hr] at h
    refine ⟨h0, h1, ?_⟩
    revert h
    refine dispatch_rel p p _ (fun s _ => s = .recurse p1 → _) ?_ ?_ ?_ ?_ ?_ ?_ ?_
    · intro hi f m1 m2 m3 h
      exact Or.inl ⟨hi, binary_recurse h⟩
    · intro hi m1 h
      exact Or.inr (Or.inl ⟨hi, getInput_recurse h⟩)
    · intro hi m1 h
      obtain ⟨v, _, hv⟩ := writeOutput_recurse h
      exact Or.inr (Or.inr (Or.inl ⟨hi, v, hv⟩))
    · intro hi taken m1 m2 h
      exact Or.inr (Or.inr (Or.inr (Or.inl ⟨hi, jump_recurse h⟩)))
    · intro hi m1 h
      obtain ⟨v, _, hv⟩ := adjustRelativeBase_recurse h
      exact Or.inr (Or.inr (Or.inr (Or.inr ⟨hi, v, hv⟩)))
    · intro _ h; cases h
    · intro _ h; cases h

/-- The tail call of an instruction other than `OpcodeGetInput` leaves the input queue and
its cursor alone; that of `OpcodeGetInput` had unread input and moves the cursor by one. -/
theorem body_recurse_input {p p1 : Process} (h : p.body = .recurse p1) :
    p1.input = p.input ∧
      ((instructionOf (p.memory.getD p.position.toNat 0) = 3 ∧
          0 ≤ p.inputPointer ∧ p.inputPointer < p.input.length ∧
          p1.inputPointer = p.inputPointer + 1) ∨
        (instructionOf (p.memory.getD p.position.toNat 0) ≠ 3 ∧
          p1.inputPointer = p.inputPointer)) := by
  obtain ⟨_, _, hcases⟩ := body_recurse h
  rcases hcases with ⟨hi, hp, _⟩ | ⟨hi, hp, _, h0, h1⟩ | ⟨hi, v, hp⟩ | ⟨hi, t, hp⟩ | ⟨hi, v, hp⟩
  · rw [hp]
    refine ⟨rfl, Or.inr ⟨?_, rfl⟩⟩
    rcases hi with hi | hi | hi | hi <;> rw [hi] <;> decide
  · rw [hp]
    exact ⟨rfl, Or.inl ⟨hi, h0, h1, rfl⟩⟩
  · rw [hp]
    exact ⟨rfl, Or.inr ⟨by rw [hi]; decide, rfl⟩⟩
  · rw [hp]
    refine ⟨rfl, Or.inr ⟨?_, rfl⟩⟩
    rcases hi with hi | hi <;> rw [hi] <;> decide
  · rw [hp]
    exact ⟨rfl, Or.inr ⟨by rw [hi]; decide, rfl⟩⟩

theorem cursorOK_recurse {p p1 : Process} (h : p.body = .recurse p1) (hc : p.cursorOK) :
    p1.cursorOK := by
  obtain ⟨hin, hcur⟩ := body_recurse_input h
  unfold Process.cursorOK at hc ⊢
  rw [hin]
  rcases hcur with ⟨_, h0, h1, hp⟩ | ⟨_, hp⟩ <;> rw [hp] <;> omega

theorem cursorOK_NewProcess (code input : List Int) : (NewProcess code input).cursorOK := by
  unfold Process.cursorOK NewProcess
  simp

theorem starved_of_returned {p q : Process} {err : Option Error}
    (h : p.body = .returned q err) : q.starved ↔ p.starved := by
  rcases body_returned h with rfl | ⟨_, _, _, rfl, _⟩
  · rfl
  · rfl

theorem resumed_of_single {p : Process} (vals : List Int) (hc : p.cursorOK) {fuel : Nat}
    {out : Outcome} (h : (p.supply vals).RunTilInterupt fuel = some out) :
    p.ResumedRuns vals out := by
  induction fuel generalizing p with
  | zero => simp [Process.RunTilInterupt] at h
  | succ fuel ih =>
    by_cases hs : p.starved
    · refine ⟨.returned p none, (Runs_returned (starved_body hs) _).2 rfl, ?_⟩
      show (p.AddInputs vals).Runs out
      rw [AddInputs_eq_supply]
      exact ⟨_, h⟩
    · simp only [Process.RunTilInterupt, body_supply vals hc hs] at h
      cases hb : p.body with
      | recurse p1 =>
        rw [hb] at h
        obtain ⟨out1, hrun, hrest⟩ := ih (cursorOK_recurse hb hc) h
        exact ⟨out1, (Runs_recurse hb _).2 hrun, hrest⟩
      | returned q err =>
        rw [hb] at h
        simp only [Step.map, Option.some.injEq] at h
        subst h
        refine ⟨.returned q err, (Runs_returned hb _).2 rfl, ?_⟩
        show (q.AddInputs vals).Runs _
        rw [AddInputs_eq_supply]
        have hq : ¬ q.starved := fun hq => hs ((starved_of_returned hb).1 hq)
        have hcq : q.cursorOK := by
          rcases body_returned hb with rfl | ⟨_, _, _, rfl, _⟩
          · exact hc
          · exact hc
        have hbq := body_supply vals hcq hq
        rw [body_returned_fixed hb] at hbq
        exact (Runs_returned hbq _).2 rfl
      | panicked =>
        rw [hb] at h
        simp only [Step.map, Option.some.injEq] at h
        subst h
        exact ⟨.panicked, (Runs_panicked hb _).2 rfl, rfl⟩

theorem single_of_resumed {p : Process} (vals : List Int) (hc : p.cursorOK) {fuel : Nat}
    {out1 : Outcome} (h : p.RunTilInterupt fuel = some out1) (out : Outcome)
    (hrest : out1.ResumesTo vals out) :
    (p.supply vals).Runs out := by
  induction fuel generalizing p with
  | zero => simp [Process.RunTilInterupt] at h
  | succ fuel ih =>
    by_cases hs : p.starved
    · simp only [Process.RunTilInterupt, starved_body hs, Option.some.injEq] at h
      subst h
      rw [← AddInputs_eq_supply]
      exact hrest
    · have hbs := body_supply vals hc hs
      simp only [Process.RunTilInterupt] at h
      cases hb : p.body with
      | recurse p1 =>
        rw [hb] at h hbs
        exact (Runs_recurse hbs _).2 (ih (cursorOK_recurse hb hc) h)
      | returned q err =>
        rw [hb] at h hbs
        simp only [Option.some.injEq] at h
        subst h
        have hq : ¬ q.starved := fun hq => hs ((starved_of_returned hb).1 hq)
        have hcq : q.cursorOK := by
          rcases body_returned hb with rfl | ⟨_, _, _, rfl, _⟩
          · exact hc
          · exact hc
        have hbq := body_supply vals hcq hq
        rw [body_returned_fixed hb] at hbq
        have hout : (q.supply vals).Runs out := by
          rw [← AddInputs_eq_supply]; exact hrest
        rw [(Runs_returned hbq _).1 hout]
        exact (Runs_returned hbs _).2 rfl
      | panicked =>
        rw [hb] at h hbs
        simp only [Option.some.injEq] at h
        subst h
        have hrest : out = .panicked := hrest
        subst hrest
        exact (Runs_panicked hbs _).2 rfl

/-- C5: for every `code`, `i1`, `i2`, scenario (a) -- `NewProcess(code, i1)`,
`RunTilInterupt`, `AddInput` of each element of `i2` in order, `RunTilInterupt` again --
ends with outcome `out` exactly when scenario (b) -- `NewProcess(code, i1 ++ i2)` and one
`RunTilInterupt` -- ends with `out`.  An outcome is the whole final state (memory,
pointer, relativeBase, input, inputPointer, output log, halted flag) together with the
returned error-or-nil, or a panic; so the two scenarios terminate together, in the same
state and with the same result, and nothing done before the suspension is done twice. -/
theorem C5_resumption_independent_of_supply_time (code i1 i2 : List Int) (out : Outcome) :
    (NewProcess code i1).ResumedRuns i2 out ↔ (NewProcess code (i1 ++ i2)).Runs out := by
  rw [NewProcess_append]
  constructor
  · rintro ⟨out1, ⟨fuel, hrun⟩, hrest⟩
    exact single_of_resumed i2 (cursorOK_NewProcess code i1) hrun out hrest
  · rintro ⟨fuel, hrun⟩
    exact resumed_of_single i2 (cursorOK_NewProcess code i1) hrun

theorem drop_cursor {l : List Int} {i : Int} (h0 : 0 ≤ i) (h1 : i < l.length) :
    l.drop i.toNat = l.getD i.toNat 0 :: l.drop (i + 1).toNat := by
  have hlt : i.toNat < l.length := by omega
  have hs : (i + 1).toNat = i.toNat + 1 := by omega
  rw [hs, List.getD_eq_getElem _ _ hlt]
  exact List.drop_eq_getElem_cons hlt

/-- Strict FIFO: the values consumed by the executed `OpcodeGetInput` instructions are,
in order, the values of the input queue from the cursor on. -/
theorem consumed_prefix {p : Process} (fuel : Nat) (hc : p.cursorOK) :
    p.consumed fuel <+: p.input.drop p.inputPointer.toNat := by
  induction fuel generalizing p with
  | zero => exact List.nil_prefix
  | succ fuel ih =>
    unfold Process.consumed
    cases hb : p.body with
    | recurse p1 =>
      have ih1 := ih (cursorOK_recurse hb hc)
      obtain ⟨hin, hcur⟩ := body_recurse_input hb
      rw [hin] at ih1
      rcases hcur with ⟨h3, h0, h1, hp⟩ | ⟨h3, hp⟩
      · rw [hp] at ih1
        simp only [if_pos h3]
        rw [drop_cursor h0 h1]
        exact (List.prefix_cons_inj _).2 ih1
      · rw [hp] at ih1
        simp only [if_neg h3]
        exact ih1
    | returned q err => exact List.nil_prefix
    | panicked => exact List.nil_prefix

theorem body_getInput_available {p : Process}
    (h0 : 0 ≤ p.position) (h1 : p.position + 1 < p.memory.length)
    (hW : instructionOf (p.memory.getD p.position.toNat 0) = 3)
    (hm : param1ModeOf (p.memory.getD p.position.toNat 0) = 0 ∨
      param1ModeOf (p.memory.getD p.position.toNat 0) = 2)
    (hd0 : 0 ≤ p.destination (p.position + 1) (param1ModeOf (p.memory.getD p.position.toNat 0)))
    (hd1 : p.destination (p.position + 1) (param1ModeOf (p.memory.getD p.position.toNat 0))
      < p.memory.length)
    (hi0 : 0 ≤ p.inputPointer) (hi1 : p.inputPointer < p.input.length) :
    p.body = .recurse
      { p with
        memory := p.memory.set
          (p.destination (p.position + 1)
            (param1ModeOf (p.memory.getD p.position.toNat 0))).toNat
          (p.input.getD p.inputPointer.toNat 0)
        inputPointer := p.inputPointer + 1
        position := p.position + 2 } := by
  rw [body_in_range h0 (by omega), dispatch_getInput hW,
    getInput_available h0 h1 hm hd0 hd1 hi0 hi1]

/-- C4: a process at an `OpcodeGetInput` instruction (`W % 100 = 3`, `W` the word at the
pointer) with write mode 0 or 2, parameter cell `position+1` in range, resolved
destination `d` inside the memory and unread input left, runs exactly as the process
with `memory[d] = input[inputPointer]`, `inputPointer+1`, `position+2` and all else
unchanged runs; an `AddInput` beforehand appends behind the unread values and changes
neither the value consumed nor the cell written; and the values consumed by the
`OpcodeGetInput` instructions executed from here on are, in order and one each, the
unread values of the input queue. -/
theorem C4_input_consumes_front (p : Process) (fuel : Nat)
    (h0 : 0 ≤ p.position) (h1 : p.position + 1 < p.memory.length)
    (hW : instructionOf (p.memory.getD p.position.toNat 0) = 3)
    (hm : param1ModeOf (p.memory.getD p.position.toNat 0) = 0 ∨
      param1ModeOf (p.memory.getD p.position.toNat 0) = 2)
    (hd0 : 0 ≤ p.destination (p.position + 1) (param1ModeOf (p.memory.getD p.position.toNat 0)))
    (hd1 : p.destination (p.position + 1) (param1ModeOf (p.memory.getD p.position.toNat 0))
      < p.memory.length)
    (hi0 : 0 ≤ p.inputPointer) (hi1 : p.inputPointer < p.input.length) :
    p.RunTilInterupt (fuel + 1) = Process.RunTilInterupt fuel
        { p with
          memory := p.memory.set
            (p.destination (p.position + 1)
              (param1ModeOf (p.memory.getD p.position.toNat 0))).toNat
            (p.input.getD p.inputPointer.toNat 0)
          inputPointer := p.inputPointer + 1
          position := p.position + 2 } ∧
      (∀ val, (p.AddInput val).RunTilInterupt (fuel + 1) = Process.RunTilInterupt fuel
        (Process.AddInput
          { p with
            memory := p.memory.set
              (p.destination (p.position + 1)
                (param1ModeOf (p.memory.getD p.position.toNat 0))).toNat
              (p.input.getD p.inputPointer.toNat 0)
            inputPointer := p.inputPointer + 1
            position := p.position + 2 } val)) ∧
      (∀ n, p.consumed n <+: p.input.drop p.inputPointer.toNat) ∧
      p.consumed 1 = [p.input.getD p.inputPointer.toNat 0] := by
  have hbody := body_getInput_available h0 h1 hW hm hd0 hd1 hi0 hi1
  refine ⟨?_, ?_, ?_, ?_⟩
  · simp only [Process.RunTilInterupt, hbody]
  · intro val
    have hlen : (((p.AddInput val).input.length : Nat) : Int) = p.input.length + 1 := by
      simp [Process.AddInput]
    have hi1v : (p.AddInput val).inputPointer < (p.AddInput val).input.length := by
      show p.inputPointer < _
      rw [hlen]; omega
    have hb2 := body_getInput_available (p := p.AddInput val) h0 h1 hW hm hd0 hd1 hi0 hi1v
    have hget : (p.AddInput val).input.getD (p.AddInput val).inputPointer.toNat 0 =
        p.input.getD p.inputPointer.toNat 0 := by
      show (p.input ++ [val]).getD p.inputPointer.toNat 0 = _
      rw [List.getD_append _ _ _ _ (by omega)]
    rw [hget] at hb2
    simp only [Process.RunTilInterupt, hb2]
    rfl
  · intro n
    exact consumed_prefix n ⟨hi0, le_of_lt hi1⟩
  · simp only [Process.consumed, hbody, if_pos hW]

/-- C4 at the program `[3, 0, 99]` with input `[7]`: the run stores 7 in cell 0. -/
theorem C4_input_consumes_front_witness :
    (padded [3, 0, 99] 0 [7]).inputPointer < (padded [3, 0, 99] 0 [7]).input.length ∧
      (padded [3, 0, 99] 0 [7]).RunTilInterupt 2 = Process.RunTilInterupt 1
        { padded [3, 0, 99] 0 [7] with memory := [7, 0, 99], inputPointer := 1, position := 2 } :=
  ⟨by decide, (C4_input_consumes_front (padded [3, 0, 99] 0 [7]) 1 (by decide) (by decide)
    (by decide) (by decide) (by decide) (by decide) (by decide) (by decide)).1⟩

theorem binary_resolved {p : Process} (f : Int → Int → Int) {m1 m2 m3 a b : Int}
    (h0 : 0 ≤ p.position) (h1 : p.position + 3 < p.memory.length)
    (ha : p.LoadParam (p.position + 1) m1 = .ok a)
    (hb : p.LoadParam (p.position + 2) m2 = .ok b)
    (hm : m3 = 0 ∨ m3 = 2)
    (hd0 : 0 ≤ p.destination (p.position + 3) m3)
    (hd1 : p.destination (p.position + 3) m3 < p.memory.length) :
    p.binary f m1 m2 m3 = .recurse
      { p with
        memory := p.memory.set (p.destination (p.position + 3) m3).toNat (f a b)
        position := p.position + 4 } := by
  unfold Process.binary
  simp only [ha, hb]
  rw [Write_resolved _ (by omega) h1 hm hd0 hd1]

theorem goAdd_of_range {a b : Int} (h0 : -2 ^ 63 ≤ a + b) (h1 : a + b < 2 ^ 63) :
    goAdd a b = a + b :=
  wrap64_of_range h0 h1

theorem goMul_of_range {a b : Int} (h0 : -2 ^ 63 ≤ a * b) (h1 : a * b < 2 ^ 63) :
    goMul a b = a * b :=
  wrap64_of_range h0 h1

/-- C10: a process at an instruction with opcode 1, 2, 7 or 8 whose first two parameters
load to `a` and `b`, whose third parameter cell `position+3` is in range with mode 0 or 2
and whose resolved destination `d` is inside the memory runs exactly as the process
with `memory[d]` set to `a+b`, `a*b`, `a < b ? 1 : 0` or `a == b ? 1 : 0` (by opcode),
`position+4` and every other cell and field unchanged runs.  The sum and the product are
those of Go's `int`: the exact ones whenever these fit in 64 bits. -/
theorem C10_binary_instruction (p : Process) (fuel : Nat) (a b : Int)
    (h0 : 0 ≤ p.position) (h1 : p.position + 3 < p.memory.length)
    (hW : instructionOf (p.memory.getD p.position.toNat 0) = 1 ∨
      instructionOf (p.memory.getD p.position.toNat 0) = 2 ∨
      instructionOf (p.memory.getD p.position.toNat 0) = 7 ∨
      instructionOf (p.memory.getD p.position.toNat 0) = 8)
    (ha : p.LoadParam (p.position + 1) (param1ModeOf (p.memory.getD p.position.toNat 0))
      = .ok a)
    (hb : p.LoadParam (p.position + 2) (param2ModeOf (p.memory.getD p.position.toNat 0))
      = .ok b)
    (hm : param3ModeOf (p.memory.getD p.position.toNat 0) = 0 ∨
      param3ModeOf (p.memory.getD p.position.toNat 0) = 2)
    (hd0 : 0 ≤ p.destination (p.position + 3) (param3ModeOf (p.memory.getD p.position.toNat 0)))
    (hd1 : p.destination (p.position + 3) (param3ModeOf (p.memory.getD p.position.toNat 0))
      < p.memory.length) :
    p.RunTilInterupt (fuel + 1) = Process.RunTilInterupt fuel
        { p with
          memory := p.memory.set
            (p.destination (p.position + 3)
              (param3ModeOf (p.memory.getD p.position.toNat 0))).toNat
            (if instructionOf (p.memory.getD p.position.toNat 0) = 1 then goAdd a b
             else if instructionOf (p.memory.getD p.position.toNat 0) = 2 then goMul a b
             else if instructionOf (p.memory.getD p.position.toNat 0) = 7 then
               (if a < b then 1 else 0)
             else (if a = b then 1 else 0))
          position := p.position + 4 } ∧
      (-2 ^ 63 ≤ a + b → a + b < 2 ^ 63 → goAdd a b = a + b) ∧
      (-2 ^ 63 ≤ a * b → a * b < 2 ^ 63 → goMul a b = a * b) := by
  refine ⟨?_, goAdd_of_range, goMul_of_range⟩
  have hbody := body_in_range h0 (show p.position < p.memory.length by omega)
  rcases hW with h | h | h | h
  · simp only [Process.RunTilInterupt, hbody, dispatch_add h,
      binary_resolved goAdd h0 h1 ha hb hm hd0 hd1, h, if_true]
  · simp only [Process.RunTilInterupt, hbody, dispatch_multiply h,
      binary_resolved goMul h0 h1 ha hb hm hd0 hd1, h]
    rfl
  · simp only [Process.RunTilInterupt, hbody, dispatch_lessThan h,
      binary_resolved _ h0 h1 ha hb hm hd0 hd1, h]
    rfl
  · simp only [Process.RunTilInterupt, hbody, dispatch_equals h,
      binary_resolved _ h0 h1 ha hb hm hd0 hd1, h]
    rfl

/-- C10 at the program `[1, 0, 0, 0, 99]`: the run stores `1 + 1` in cell 0. -/
theorem C10_binary_instruction_witness :
    (padded [1, 0, 0, 0, 99] 0 []).LoadParam 1 0 = .ok 1 ∧
      (padded [1, 0, 0, 0, 99] 0 []).RunTilInterupt 2 = Process.RunTilInterupt 1
        { padded [1, 0, 0, 0, 99] 0 [] with memory := [2, 0, 0, 0, 99], position := 4 } :=
  ⟨rfl, (C10_binary_instruction (padded [1, 0, 0, 0, 99] 0 []) 1 1 1 (by decide)
    (by decide) (by decide) rfl rfl (by decide) (by decide) (by decide)).1⟩

/-- C7: for every opcode `O` of the instruction set and all modes `m1`, `m2`, `m3` in
`{0, 1, 2}`, the decoding expressions of `RunTilInterupt` applied to
`W = O + m1*100 + m2*1000 + m3*10000` give back `O`, `m1`, `m2` and `m3`. -/
theorem C7_decode_roundtrip (O m1 m2 m3 : Int)
    (hO : O ∈ [1, 2, 3, 4, 5, 6, 7, 8, 9, 99])
    (h1 : m1 ∈ [0, 1, 2]) (h2 : m2 ∈ [0, 1, 2]) (h3 : m3 ∈ [0, 1, 2]) :
    instructionOf (O + m1 * 100 + m2 * 1000 + m3 * 10000) = O ∧
      param1ModeOf (O + m1 * 100 + m2 * 1000 + m3 * 10000) = m1 ∧
      param2ModeOf (O + m1 * 100 + m2 * 1000 + m3 * 10000) = m2 ∧
      param3ModeOf (O + m1 * 100 + m2 * 1000 + m3 * 10000) = m3 := by
  simp only [List.mem_cons, List.mem_singleton, List.not_mem_nil, or_false] at hO h1 h2 h3
  rcases hO with rfl | rfl | rfl | rfl | rfl | rfl | rfl | rfl | rfl | rfl <;>
    rcases h1 with rfl | rfl | rfl <;>
    rcases h2 with rfl | rfl | rfl <;>
    rcases h3 with rfl | rfl | rfl <;>
    decide

/-- C7 at `W = 21008`: opcode 8 with modes 0, 1, 2. -/
theorem C7_decode_roundtrip_witness :
    (8 : Int) ∈ [1, 2, 3, 4, 5, 6, 7, 8, 9, 99] ∧
      instructionOf (8 + 0 * 100 + 1 * 1000 + 2 * 10000) = 8 ∧
      param1ModeOf (8 + 0 * 100 + 1 * 1000 + 2 * 10000) = 0 ∧
      param2ModeOf (8 + 0 * 100 + 1 * 1000 + 2 * 10000) = 1 ∧
      param3ModeOf (8 + 0 * 100 + 1 * 1000 + 2 * 10000) = 2 :=
  ⟨by decide, C7_decode_roundtrip 8 0 1 2 (by decide) (by decide) (by decide) (by decide)⟩

/-! ## Writes outside the memory and writes with an unknown mode -/

theorem RunTilInterupt_of_recurse {p p1 : Process} (h : p.body = .recurse p1) (fuel : Nat) :
    p.RunTilInterupt (fuel + 1) = p1.RunTilInterupt fuel := by
  simp only [Process.RunTilInterupt, h]

theorem RunTilInterupt_of_returned {p q : Process} {err : Option Error}
    (h : p.body = .returned q err) (fuel : Nat) :
    p.RunTilInterupt (fuel + 1) = some (.returned q err) := by
  simp only [Process.RunTilInterupt, h]

theorem RunTilInterupt_of_panicked {p : Process} (h : p.body = .panicked) (fuel : Nat) :
    p.RunTilInterupt (fuel + 1) = some .panicked := by
  simp only [Process.RunTilInterupt, h]

theorem Write_unchecked {p : Process} {position mode : Int} (value : Int)
    (h0 : 0 ≤ position) (h1 : position < p.memory.length) (hm : mode = 0 ∨ mode = 2)
    (hd : ¬ (0 ≤ p.destination position mode ∧
      p.destination position mode < p.memory.length)) :
    p.Write position value mode = .panicked := by
  unfold Process.Write
  rw [if_neg (by omega)]
  rcases hm with rfl | rfl
  · have hdest : p.destination position 0 = p.memory.getD position.toNat 0 := rfl
    rw [hdest] at hd
    simp only [Process.store, if_neg hd, if_true]
  · have hdest : p.destination position 2 =
        goAdd (p.memory.getD position.toNat 0) p.relativeBase := rfl
    rw [hdest] at hd
    rw [if_neg (by decide), if_pos rfl]
    simp only [Process.store, if_neg hd]

/-- The defect behind C8, for every state: an instruction with opcode 1, 2, 7 or 8 whose
operands load, whose third parameter cell is in range with mode 0 or 2 and whose resolved
destination is outside the memory makes the Go program panic; no error is returned. -/
theorem binary_unchecked {p : Process} (f : Int → Int → Int) {m1 m2 m3 a b : Int}
    (h0 : 0 ≤ p.position) (h1 : p.position + 3 < p.memory.length)
    (ha : p.LoadParam (p.position + 1) m1 = .ok a)
    (hb : p.LoadParam (p.position + 2) m2 = .ok b)
    (hm : m3 = 0 ∨ m3 = 2)
    (hd : ¬ (0 ≤ p.destination (p.position + 3) m3 ∧
      p.destination (p.position + 3) m3 < p.memory.length)) :
    p.binary f m1 m2 m3 = .panicked := by
  unfold Process.binary
  simp only [ha, hb]
  rw [Write_unchecked _ (by omega) h1 hm hd]

theorem NewProcess_length (code input : List Int) :
    ((NewProcess code input).memory.length : Int) = code.length + headroom := by
  simp [NewProcess]

theorem NewProcess_getD (code input : List Int) (i : Nat) (h : i < code.length) :
    (NewProcess code input).memory.getD i 0 = code.getD i 0 := by
  unfold NewProcess
  exact List.getD_append _ _ _ _ h

theorem NewProcess_LoadParam {code input : List Int} {position mode value : Int}
    (h : (padded code 0 input).LoadParam position mode = .ok value) :
    (NewProcess code input).LoadParam position mode = .ok value := by
  rw [NewProcess_eq_extend code input 0 (Nat.zero_le _)]
  exact LoadParam_extend _ h

/-- C8, the code at the failing input: `NewProcess([1,0,0,-1,99], [])` is an Add with
readable operands (both load to 1), a third parameter cell in range with mode 0, and
destination `memory[3] = -1` outside the memory; `RunTilInterupt` does not return an
out-of-bounds error, the indexed assignment in `Write` panics. -/
theorem C8_write_destination_unchecked (fuel : Nat) :
    instructionOf 1 = 1 ∧ param3ModeOf 1 = 0 ∧
      (NewProcess [1, 0, 0, -1, 99] []).LoadParam 1 0 = .ok 1 ∧
      (NewProcess [1, 0, 0, -1, 99] []).LoadParam 2 0 = .ok 1 ∧
      (NewProcess [1, 0, 0, -1, 99] []).destination 3 0 = -1 ∧
      (NewProcess [1, 0, 0, -1, 99] []).RunTilInterupt (fuel + 1) = some .panicked := by
  have hlen := NewProcess_length [1, 0, 0, -1, 99] []
  have hhead : (headroom : Int) = 900000 := rfl
  have hcode : (([1, 0, 0, -1, 99] : List Int).length : Int) = 5 := rfl
  rw [hhead, hcode] at hlen
  have hpos : (NewProcess [1, 0, 0, -1, 99] []).position = 0 := rfl
  have hW : (NewProcess [1, 0, 0, -1, 99] []).memory.getD
      (NewProcess [1, 0, 0, -1, 99] []).position.toNat 0 = 1 := by
    show (NewProcess [1, 0, 0, -1, 99] []).memory.getD 0 0 = 1
    rw [NewProcess_getD [1, 0, 0, -1, 99] [] 0 (by decide)]
    rfl
  have ha : (NewProcess [1, 0, 0, -1, 99] []).LoadParam 1 0 = .ok 1 :=
    NewProcess_LoadParam rfl
  have hb : (NewProcess [1, 0, 0, -1, 99] []).LoadParam 2 0 = .ok 1 :=
    NewProcess_LoadParam rfl
  have hd : (NewProcess [1, 0, 0, -1, 99] []).destination 3 0 = -1 := by
    show (NewProcess [1, 0, 0, -1, 99] []).memory.getD 3 0 = -1
    rw [NewProcess_getD [1, 0, 0, -1, 99] [] 3 (by decide)]
    rfl
  refine ⟨by decide, by decide, ha, hb, hd, ?_⟩
  have hout : ¬ (0 ≤ (NewProcess [1, 0, 0, -1, 99] []).destination
        ((NewProcess [1, 0, 0, -1, 99] []).position + 3) (param3ModeOf 1) ∧
      (NewProcess [1, 0, 0, -1, 99] []).destination
        ((NewProcess [1, 0, 0, -1, 99] []).position + 3) (param3ModeOf 1) <
        (NewProcess [1, 0, 0, -1, 99] []).memory.length) := by
    intro h
    have h1 : (0 : Int) ≤ (NewProcess [1, 0, 0, -1, 99] []).destination 3 0 := h.1
    rw [hd] at h1
    exact absurd h1 (by decide)
  have hbody : (NewProcess [1, 0, 0, -1, 99] []).body = .panicked := by
    rw [body_in_range (by rw [hpos]) (by rw [hpos, hlen]; decide), hW,
      dispatch_add (by decide)]
    exact binary_unchecked goAdd (by rw [hpos]) (by rw [hpos, hlen]; decide) ha hb
      (Or.inl (by decide)) hout
  exact RunTilInterupt_of_panicked hbody fuel

theorem LoadParam_unknown_mode (p : Process) (position : Int) {mode : Int}
    (h : mode ≠ 0 ∧ mode ≠ 1 ∧ mode ≠ 2) :
    p.LoadParam position mode = .error .unknownInputMode := by
  unfold Process.LoadParam
  rw [if_neg h.1, if_neg h.2.1, if_neg h.2.2]

/-- The part of C9 that the code does: an unknown mode on the first or the second
parameter of an instruction with opcode 1, 2, 7 or 8 makes the instruction return an
error, with the process as it was. -/
theorem binary_unknown_read_mode (p : Process) (f : Int → Int → Int) {m1 m2 : Int} (m3 : Int)
    (h : (m1 ≠ 0 ∧ m1 ≠ 1 ∧ m1 ≠ 2) ∨ (m2 ≠ 0 ∧ m2 ≠ 1 ∧ m2 ≠ 2)) :
    ∃ err, p.binary f m1 m2 m3 = .returned p (some err) := by
  unfold Process.binary
  cases h1 : p.LoadParam (p.position + 1) m1 with
  | error e => exact ⟨e, rfl⟩
  | ok value1 =>
    rcases h with h | h
    · rw [LoadParam_unknown_mode p _ h] at h1
      cases h1
    · rw [LoadParam_unknown_mode p _ h]
      exact ⟨_, rfl⟩

theorem badMode_padded :
    (padded [30001, 0, 0, 0, 99] 3 []).RunTilInterupt 2 = some (.returned
      { memory := [30001, 0, 0, 0, 99, 0, 0, 0]
        position := 4
        output := []
        input := []
        inputPointer := 0
        outputPointer := 0
        relativeBase := 0
        halted := true } none) ∧ (padded [30001, 0, 0, 0, 99] 3 []).roomy 2 = true :=
  ⟨rfl, rfl⟩

/-- C9, the code at the failing input: the word 30001 is an Add (`30001 % 100 = 1`) whose
first two mode digits are 0 and whose third mode digit is 3, outside `{0, 1, 2}`.
`NewProcess([30001,0,0,0,99], [])` run with `RunTilInterupt` returns no error: `Write`
has no case for mode 3, the sum is dropped, the pointer moves on by 4 and the run ends
at the Halt with a nil error and the program cells as they were. -/
theorem C9_unknown_write_mode_not_a_fault :
    instructionOf 30001 = 1 ∧ param1ModeOf 30001 = 0 ∧ param2ModeOf 30001 = 0 ∧
      param3ModeOf 30001 = 3 ∧
      ∃ q, (NewProcess [30001, 0, 0, 0, 99] []).RunTilInterupt 2 = some (.returned q none) ∧
        q.halted = true ∧ q.position = 4 ∧
        q.memory.take 5 = [30001, 0, 0, 0, 99] := by
  obtain ⟨hrun, hroom⟩ := badMode_padded
  have hext := RunTilInterupt_extend (List.replicate (headroom - 3) 0) hroom hrun
  rw [← NewProcess_eq_extend _ _ 3 (by decide)] at hext
  refine ⟨by decide, by decide, by decide, by decide, _, hext, rfl, rfl, ?_⟩
  show (([30001, 0, 0, 0, 99, 0, 0, 0] : List Int) ++ _).take 5 = _
  rw [List.take_append_of_le_length (by decide)]
  rfl

/-! ## Jumps -/

theorem dispatch_jumpIfTrue {p : Process} {operation : Int} (h : instructionOf operation = 5) :
    p.dispatch operation = p.jump (fun value1 => decide (value1 ≠ 0))
      (param1ModeOf operation) (param2ModeOf operation) := by
  simp only [Process.dispatch, h]
  rfl

theorem dispatch_jumpIfFalse {p : Process} {operation : Int} (h : instructionOf operation = 6) :
    p.dispatch operation = p.jump (fun value1 => decide (value1 = 0))
      (param1ModeOf operation) (param2ModeOf operation) := by
  simp only [Process.dispatch, h]
  rfl

theorem jump_taken {p : Process} {taken : Int → Bool} {m1 m2 c t : Int}
    (hc : p.LoadParam (p.position + 1) m1 = .ok c) (ht : taken c = true)
    (h2 : p.LoadParam (p.position + 2) m2 = .ok t) :
    p.jump taken m1 m2 = .recurse { p with position := t } := by
  unfold Process.jump
  simp only [hc, ht, if_true, h2]

theorem jump_not_taken {p : Process} {taken : Int → Bool} {m1 : Int} (m2 : Int) {c : Int}
    (hc : p.LoadParam (p.position + 1) m1 = .ok c) (ht : taken c = false) :
    p.jump taken m1 m2 = .recurse { p with position := p.position + 3 } := by
  unfold Process.jump
  simp only [hc, ht, Bool.false_eq_true, if_false]

/-- C11: a process at an instruction with opcode 5 or 6 whose first parameter loads to
`c`.  When the branch condition holds (`c != 0` for opcode 5, `c == 0` for opcode 6) and
the second parameter loads to `t`, `RunTilInterupt` runs exactly as the same process
with `position = t` runs (no `+3` on top).  When it does not hold, `RunTilInterupt` runs
exactly as the same process with `position + 3` runs, whatever the second parameter is
(it is not loaded, so it may even be unreadable).  Only `position` differs between the
process and the one continued from: memory, relativeBase, input and output are the
same. -/
theorem C11_jump_instruction (p : Process) (fuel : Nat) (c : Int)
    (h0 : 0 ≤ p.position) (h1 : p.position < p.memory.length)
    (hW : instructionOf (p.memory.getD p.position.toNat 0) = 5 ∨
      instructionOf (p.memory.getD p.position.toNat 0) = 6)
    (hc : p.LoadParam (p.position + 1) (param1ModeOf (p.memory.getD p.position.toNat 0))
      = .ok c) :
    ((instructionOf (p.memory.getD p.position.toNat 0) = 5 ∧ c ≠ 0 ∨
        instructionOf (p.memory.getD p.position.toNat 0) = 6 ∧ c = 0) →
      ∀ t, p.LoadParam (p.position + 2) (param2ModeOf (p.memory.getD p.position.toNat 0))
          = .ok t →
        p.RunTilInterupt (fuel + 1) = Process.RunTilInterupt fuel { p with position := t }) ∧
    (¬ (instructionOf (p.memory.getD p.position.toNat 0) = 5 ∧ c ≠ 0 ∨
        instructionOf (p.memory.getD p.position.toNat 0) = 6 ∧ c = 0) →
      p.RunTilInterupt (fuel + 1) =
        Process.RunTilInterupt fuel { p with position := p.position + 3 }) := by
  have hbody := body_in_range h0 h1
  constructor
  · intro hcond t ht
    apply RunTilInterupt_of_recurse
    rw [hbody]
    rcases hW with h5 | h6
    · rw [dispatch_jumpIfTrue h5]
      refine jump_taken hc ?_ ht
      rcases hcond with ⟨_, hne⟩ | ⟨h6, _⟩
      · exact decide_eq_true hne
      · rw [h5] at h6; exact absurd h6 (by decide)
    · rw [dispatch_jumpIfFalse h6]
      refine jump_taken hc ?_ ht
      rcases hcond with ⟨h5, _⟩ | ⟨_, he⟩
      · rw [h6] at h5; exact absurd h5 (by decide)
      · exact decide_eq_true he
  · intro hcond
    apply RunTilInterupt_of_recurse
    rw [hbody]
    rcases hW with h5 | h6
    · rw [dispatch_jumpIfTrue h5]
      refine jump_not_taken _ hc ?_
      have : ¬ c ≠ 0 := fun hne => hcond (Or.inl ⟨h5, hne⟩)
      exact decide_eq_false this
    · rw [dispatch_jumpIfFalse h6]
      refine jump_not_taken _ hc ?_
      have : ¬ c = 0 := fun he => hcond (Or.inr ⟨h6, he⟩)
      exact decide_eq_false this

/-- C11 at the program `[1105, 1, 4, 0, 99]`: the jump-if-true is taken to cell 4. -/
theorem C11_jump_instruction_witness :
    (padded [1105, 1, 4, 0, 99] 0 []).LoadParam 1 1 = .ok 1 ∧
      (padded [1105, 1, 4, 0, 99] 0 []).RunTilInterupt 2 =
        Process.RunTilInterupt 1 { padded [1105, 1, 4, 0, 99] 0 [] with position := 4 } :=
  ⟨rfl, (C11_jump_instruction (padded [1105, 1, 4, 0, 99] 0 []) 1 1 (by decide) (by decide)
    (by decide) rfl).1 (by decide) 4 rfl⟩

/-! ## Properties kept along a run -/

/-- A transitive relation that holds from a process to the one the tail call is made on,
and from a process to the one a `return` leaves, holds from the start of a run of
`RunTilInterupt` to its end. -/
theorem RunTilInterupt_rel (R : Process → Process → Prop)
    (hrecurse : ∀ p p1, p.body = .recurse p1 → R p p1)
    (hreturned : ∀ p q err, p.body = .returned q err → R p q)
    (htrans : ∀ a b c, R a b → R b c → R a c)
    {fuel : Nat} {p q : Process} {err : Option Error}
    (h : p.RunTilInterupt fuel = some (.returned q err)) : R p q := by
  induction fuel generalizing p with
  | zero => simp [Process.RunTilInterupt] at h
  | succ fuel ih =>
    cases hb : p.body with
    | recurse p1 =>
      rw [RunTilInterupt_of_recurse hb] at h
      exact htrans _ _ _ (hrecurse _ _ hb) (ih h)
    | returned q1 err1 =>
      rw [RunTilInterupt_of_returned hb] at h
      cases h
      exact hreturned _ _ _ hb
    | panicked =>
      rw [RunTilInterupt_of_panicked hb] at h
      cases h

theorem dispatch_writeOutput {p : Process} {operation : Int} (h : instructionOf operation = 4) :
    p.dispatch operation = p.writeOutput (param1ModeOf operation) := by
  simp only [Process.dispatch, h]
  rfl

theorem dispatch_adjustRelativeBase {p : Process} {operation : Int}
    (h : instructionOf operation = 9) :
    p.dispatch operation = p.adjustRelativeBase (param1ModeOf operation) := by
  simp only [Process.dispatch, h]
  rfl

theorem body_recurse_output {p p1 : Process} (h : p.body = .recurse p1) :
    (instructionOf (p.memory.getD p.position.toNat 0) = 4 ∧
        ∃ value, p1.output = p.output ++ [value]) ∨
      (instructionOf (p.memory.getD p.position.toNat 0) ≠ 4 ∧ p1.output = p.output) := by
  obtain ⟨_, _, hcases⟩ := body_recurse h
  rcases hcases with ⟨hi, hp, _⟩ | ⟨hi, hp, _⟩ | ⟨hi, v, hp⟩ | ⟨hi, t, hp⟩ | ⟨hi, v, hp⟩
  · rw [hp]
    refine Or.inr ⟨?_, rfl⟩
    rcases hi with hi | hi | hi | hi <;> rw [hi] <;> decide
  · rw [hp]
    exact Or.inr ⟨by rw [hi]; decide, rfl⟩
  · rw [hp]
    exact Or.inl ⟨hi, v, rfl⟩
  · rw [hp]
    refine Or.inr ⟨?_, rfl⟩
    rcases hi with hi | hi <;> rw [hi] <;> decide
  · rw [hp]
    exact Or.inr ⟨by rw [hi]; decide, rfl⟩

theorem body_returned_fields {p q : Process} {err : Option Error}
    (h : p.body = .returned q err) :
    q.memory = p.memory ∧ q.position = p.position ∧ q.output = p.output ∧
      q.input = p.input ∧ q.inputPointer = p.inputPointer ∧
      q.outputPointer = p.outputPointer ∧ q.relativeBase = p.relativeBase := by
  rcases body_returned h with rfl | ⟨_, _, _, rfl, _⟩
  · exact ⟨rfl, rfl, rfl, rfl, rfl, rfl, rfl⟩
  · exact ⟨rfl, rfl, rfl, rfl, rfl, rfl, rfl⟩

theorem output_prefix_of_run {fuel : Nat} {p q : Process} {err : Option Error}
    (h : p.RunTilInterupt fuel = some (.returned q err)) : p.output <+: q.output := by
  refine RunTilInterupt_rel (fun a b => a.output <+: b.output) ?_ ?_ ?_ h
  · intro a b hb
    rcases body_recurse_output hb with ⟨_, v, hv⟩ | ⟨_, hv⟩
    · rw [hv]; exact List.prefix_append _ _
    · rw [hv]
  · intro a b e hb
    rw [(body_returned_fields hb).2.2.1]
  · intro a b c hab hbc
    exact hab.trans hbc

/-- C12: (1) a process at an instruction with opcode 4 whose parameter loads to `v` runs
exactly as the process with `v` appended at the end of the output log and `position+2`
runs, all earlier log entries, memory, relativeBase, input and outputPointer being the
same; (2) when a call of `RunTilInterupt` returns, the output log before the call is a
prefix of the log after it; (3) an executed instruction whose opcode is not 4 leaves the
log as it is, and so does an instruction on which `RunTilInterupt` returns. -/
theorem C12_output_append_only :
    (∀ (p : Process) (fuel : Nat) (v : Int),
      0 ≤ p.position → p.position < p.memory.length →
      instructionOf (p.memory.getD p.position.toNat 0) = 4 →
      p.LoadParam (p.position + 1) (param1ModeOf (p.memory.getD p.position.toNat 0))
        = .ok v →
      p.RunTilInterupt (fuel + 1) = Process.RunTilInterupt fuel
        { p with output := p.output ++ [v], position := p.position + 2 }) ∧
    (∀ (p q : Process) (fuel : Nat) (err : Option Error),
      p.RunTilInterupt fuel = some (.returned q err) → p.output <+: q.output) ∧
    (∀ p p1 : Process, p.body = .recurse p1 →
      instructionOf (p.memory.getD p.position.toNat 0) ≠ 4 → p1.output = p.output) ∧
    (∀ (p q : Process) (err : Option Error), p.body = .returned q err →
      q.output = p.output) := by
  refine ⟨?_, ?_, ?_, ?_⟩
  · intro p fuel v h0 h1 hW hv
    apply RunTilInterupt_of_recurse
    rw [body_in_range h0 h1, dispatch_writeOutput hW]
    unfold Process.writeOutput
    rw [hv]
  · intro p q fuel err h
    exact output_prefix_of_run h
  · intro p p1 hb hne
    rcases body_recurse_output hb with ⟨h4, _⟩ | ⟨_, hv⟩
    · exact absurd h4 hne
    · exact hv
  · intro p q err hb
    exact (body_returned_fields hb).2.2.1

/-- C12 at the program `[104, 7, 99]`: the Output appends 7 to the empty log, and the
whole run ends with the log `[7]`, of which the empty log is a prefix. -/
theorem C12_output_append_only_witness :
    (padded [104, 7, 99] 0 []).RunTilInterupt 2 = Process.RunTilInterupt 1
        { padded [104, 7, 99] 0 [] with output := [7], position := 2 } ∧
      (padded [104, 7, 99] 0 []).output <+:
        ({ padded [104, 7, 99] 0 [] with output := [7], position := 2, halted := true }
          : Process).output :=
  ⟨C12_output_append_only.1 (padded [104, 7, 99] 0 []) 1 7 (by decide) (by decide)
      (by decide) rfl,
    C12_output_append_only.2.1 (padded [104, 7, 99] 0 []) _ 2 none rfl⟩

theorem body_recurse_relativeBase {p p1 : Process} (h : p.body = .recurse p1) :
    (instructionOf (p.memory.getD p.position.toNat 0) = 9 ∧
        ∃ value, p1.relativeBase = goAdd p.relativeBase value) ∨
      (instructionOf (p.memory.getD p.position.toNat 0) ≠ 9 ∧
        p1.relativeBase = p.relativeBase) := by
  obtain ⟨_, _, hcases⟩ := body_recurse h
  rcases hcases with ⟨hi, hp, _⟩ | ⟨hi, hp, _⟩ | ⟨hi, v, hp⟩ | ⟨hi, t, hp⟩ | ⟨hi, v, hp⟩
  · rw [hp]
    refine Or.inr ⟨?_, rfl⟩
    rcases hi with hi | hi | hi | hi <;> rw [hi] <;> decide
  · rw [hp]
    exact Or.inr ⟨by rw [hi]; decide, rfl⟩
  · rw [hp]
    exact Or.inr ⟨by rw [hi]; decide, rfl⟩
  · rw [hp]
    refine Or.inr ⟨?_, rfl⟩
    rcases hi with hi | hi <;> rw [hi] <;> decide
  · rw [hp]
    exact Or.inl ⟨hi, v, rfl⟩

theorem relativeBase_of_noAdjust {fuel : Nat} {p q : Process} {err : Option Error}
    (hno : p.noAdjust fuel = true)
    (h : p.RunTilInterupt fuel = some (.returned q err)) :
    q.relativeBase = p.relativeBase := by
  induction fuel generalizing p with
  | zero => simp [Process.RunTilInterupt] at h
  | succ fuel ih =>
    simp only [Process.noAdjust, Bool.and_eq_true, decide_eq_true_eq] at hno
    obtain ⟨h9, hrest⟩ := hno
    cases hb : p.body with
    | recurse p1 =>
      rw [RunTilInterupt_of_recurse hb] at h
      rw [hb] at hrest
      rw [ih hrest h]
      rcases body_recurse_relativeBase hb with ⟨h9', _⟩ | ⟨_, hv⟩
      · exact absurd h9' h9
      · exact hv
    | returned q1 err1 =>
      rw [RunTilInterupt_of_returned hb] at h
      cases h
      exact (body_returned_fields hb).2.2.2.2.2.2
    | panicked =>
      rw [RunTilInterupt_of_panicked hb] at h
      cases h

theorem NextOutput_fields {p q : Process} {value : Int} (h : p.NextOutput = some (value, q)) :
    0 ≤ p.outputPointer ∧ p.outputPointer < p.output.length ∧
      value = p.output.getD p.outputPointer.toNat 0 ∧
      q = { p with outputPointer := p.outputPointer + 1 } := by
  unfold Process.NextOutput at h
  split at h
  · rename_i hr
    cases h
    exact ⟨hr.1, hr.2, rfl, rfl⟩
  · cases h

/-- C13: (1) a process at an instruction with opcode 9 whose parameter loads to `v` runs
exactly as the process with `relativeBase + v` (Go's `+=`, the exact sum whenever it
fits in 64 bits), `position+2` and the same memory, input and output runs; (2) the
process a tail call is made on after an instruction with another opcode, the process a
`return` of `RunTilInterupt` leaves, and the process after `AddInput` or `NextOutput`
have the relativeBase they had; (3) a run from `NewProcess(code, ins)` in which no
executed instruction has opcode 9 ends with `relativeBase = 0`. -/
theorem C13_relativeBase_only_by_opcode9 :
    (∀ (p : Process) (fuel : Nat) (v : Int),
      0 ≤ p.position → p.position < p.memory.length →
      instructionOf (p.memory.getD p.position.toNat 0) = 9 →
      p.LoadParam (p.position + 1) (param1ModeOf (p.memory.getD p.position.toNat 0))
        = .ok v →
      p.RunTilInterupt (fuel + 1) = Process.RunTilInterupt fuel
          { p with relativeBase := goAdd p.relativeBase v, position := p.position + 2 } ∧
        (-2 ^ 63 ≤ p.relativeBase + v → p.relativeBase + v < 2 ^ 63 →
          goAdd p.relativeBase v = p.relativeBase + v)) ∧
    (∀ p p1 : Process, p.body = .recurse p1 →
      instructionOf (p.memory.getD p.position.toNat 0) ≠ 9 →
      p1.relativeBase = p.relativeBase) ∧
    (∀ (p q : Process) (err : Option Error), p.body = .returned q err →
      q.relativeBase = p.relativeBase) ∧
    (∀ (p : Process) (val : Int), (p.AddInput val).relativeBase = p.relativeBase) ∧
    (∀ (p q : Process) (value : Int), p.NextOutput = some (value, q) →
      q.relativeBase = p.relativeBase) ∧
    (∀ (code ins : List Int) (fuel : Nat) (q : Process) (err : Option Error),
      (NewProcess code ins).noAdjust fuel = true →
      (NewProcess code ins).RunTilInterupt fuel = some (.returned q err) →
      q.relativeBase = 0) := by
  refine ⟨?_, ?_, ?_, ?_, ?_, ?_⟩
  · intro p fuel v h0 h1 hW hv
    refine ⟨?_, goAdd_of_range⟩
    apply RunTilInterupt_of_recurse
    rw [body_in_range h0 h1, dispatch_adjustRelativeBase hW]
    unfold Process.adjustRelativeBase
    rw [hv]
  · intro p p1 hb hne
    rcases body_recurse_relativeBase hb with ⟨h9, _⟩ | ⟨_, hv⟩
    · exact absurd h9 hne
    · exact hv
  · intro p q err hb
    exact (body_returned_fields hb).2.2.2.2.2.2
  · intro p val
    rfl
  · intro p q value h
    rw [(NextOutput_fields h).2.2.2]
  · intro code ins fuel q err hno h
    exact relativeBase_of_noAdjust hno h

/-- C13 at the program `[109, 5, 99]`: the instruction moves the relative base from 0
to 5. -/
theorem C13_relativeBase_only_by_opcode9_witness :
    (padded [109, 5, 99] 0 []).RunTilInterupt 2 = Process.RunTilInterupt 1
      { padded [109, 5, 99] 0 [] with relativeBase := 5, position := 2 } :=
  (C13_relativeBase_only_by_opcode9.1 (padded [109, 5, 99] 0 []) 1 5 (by decide) (by decide)
    (by decide) rfl).1

/-! ## Unknown opcodes -/

/-- Go's `%` keeps the sign of the dividend: a word that is not positive has a remainder
that is not positive. -/
theorem instructionOf_nonpos {operation : Int} (h : operation ≤ 0) :
    instructionOf operation ≤ 0 := by
  unfold instructionOf
  cases operation with
  | ofNat n =>
    have hn : n = 0 := by
      have : (n : Int) ≤ 0 := h
      omega
    subst hn
    decide
  | negSucc m =>
    show -((((m + 1) % 100 : Nat) : Int)) ≤ 0
    omega

theorem dispatch_unknown {p : Process} {operation : Int}
    (h : instructionOf operation ∉ [1, 2, 3, 4, 5, 6, 7, 8, 9, 99]) :
    p.dispatch operation = .returned p (some (.unknownOpcode operation)) := by
  simp only [List.mem_cons, List.mem_singleton, List.not_mem_nil, or_false, not_or] at h
  obtain ⟨h1, h2, h3, h4, h5, h6, h7, h8, h9, h99⟩ := h
  unfold Process.dispatch
  simp only [if_neg h1, if_neg h2, if_neg h3, if_neg h4, if_neg h5, if_neg h6, if_neg h7,
    if_neg h8, if_neg h9, if_neg h99]

/-- C14: a process whose pointer is in range and whose instruction word `W` has a Go
remainder `W % 100` outside `{1,...,9,99}` returns from `RunTilInterupt` with the
unknown-opcode error for `W` and with every field as it was.  Go's `%` truncates toward
zero, so this holds for every `W <= 0`: the remainder is then not positive; for example
`-1 % 100 = -1`, not 99. -/
theorem C14_unknown_opcode_faults (p : Process) (fuel : Nat)
    (h0 : 0 ≤ p.position) (h1 : p.position < p.memory.length)
    (hW : instructionOf (p.memory.getD p.position.toNat 0)
      ∉ [1, 2, 3, 4, 5, 6, 7, 8, 9, 99]) :
    p.RunTilInterupt (fuel + 1) = some (.returned p
        (some (.unknownOpcode (p.memory.getD p.position.toNat 0)))) ∧
      (∀ W : Int, W ≤ 0 → instructionOf W ∉ [1, 2, 3, 4, 5, 6, 7, 8, 9, 99]) ∧
      instructionOf (-1) = -1 := by
  refine ⟨?_, ?_, by decide⟩
  · apply RunTilInterupt_of_returned
    rw [body_in_range h0 h1, dispatch_unknown hW]
  · intro W hle hmem
    have hnonpos := instructionOf_nonpos hle
    simp only [List.mem_cons, List.mem_singleton, List.not_mem_nil, or_false] at hmem
    omega

/-- C14 at the one-cell program `[-1]`: the word -1 is not executed as a Halt. -/
theorem C14_unknown_opcode_faults_witness :
    instructionOf ((padded [-1] 0 []).memory.getD (padded [-1] 0 []).position.toNat 0)
        ∉ [1, 2, 3, 4, 5, 6, 7, 8, 9, 99] ∧
      (padded [-1] 0 []).RunTilInterupt 1 =
        some (.returned (padded [-1] 0 []) (some (.unknownOpcode (-1)))) :=
  ⟨by decide, (C14_unknown_opcode_faults (padded [-1] 0 []) 0 (by decide) (by decide)
    (by decide)).1⟩

/-! ## `Read` and `LoadParam` -/

theorem Read_out_of_range {p : Process} {position : Int} (h : ¬ p.inRange position) :
    p.Read position = .error (.readOutOfRange position) := by
  unfold Process.Read
  unfold Process.inRange at h
  rw [if_pos (by omega)]

theorem Read_eq_cell (p : Process) (position : Int) :
    p.Read position =
      match p.cell? position with
      | some value => .ok value
      | none => .error (.readOutOfRange position) := by
  unfold Process.cell?
  by_cases h : p.inRange position
  · rw [if_pos h, Read_in_range h.1 h.2]
  · rw [if_neg h, Read_out_of_range h]

theorem LoadParam_ok_iff_resolveRead (p : Process) (position mode value : Int) :
    p.LoadParam position mode = .ok value ↔ p.resolveRead position mode = some value := by
  unfold Process.LoadParam Process.resolveRead
  simp only [Read_eq_cell]
  split_ifs
  · cases h1 : p.cell? position with
    | none => simp
    | some pointer =>
      cases h2 : p.cell? pointer with
      | none => simp [h2]
      | some v => simp [h2]
  · cases h1 : p.cell? position with
    | none => simp
    | some v => simp
  · cases h1 : p.cell? position with
    | none => simp
    | some pointer =>
      cases h2 : p.cell? (goAdd pointer p.relativeBase) with
      | none => simp [h2]
      | some v => simp [h2]
  · simp

/-- C15: `LoadParam` is the reference resolver.  For every process and position:
mode 1 gives `memory[position]`, mode 0 gives `memory[memory[position]]`, mode 2 gives
`memory[memory[position] + relativeBase]` (Go's `+`), each when the addresses read are
inside `[0, len(memory))`; when the first address read is outside, and when the second
one is, the result is the out-of-range error for that address (so an out-of-range error
is returned exactly when an address read is outside); every other mode gives the
unknown-mode error; and `LoadParam` succeeds with a value exactly when the resolver of
the specification gives that value.  `LoadParam` and `Read` assign to no field of the
process: in the embedding they return a result and no new state. -/
theorem C15_LoadParam_is_reference_resolver (p : Process) (position : Int) :
    (p.inRange position →
      p.LoadParam position 1 = .ok (p.memory.getD position.toNat 0)) ∧
    (p.inRange position → p.inRange (p.memory.getD position.toNat 0) →
      p.LoadParam position 0 =
        .ok (p.memory.getD (p.memory.getD position.toNat 0).toNat 0)) ∧
    (p.inRange position →
      p.inRange (goAdd (p.memory.getD position.toNat 0) p.relativeBase) →
      p.LoadParam position 2 =
        .ok (p.memory.getD (goAdd (p.memory.getD position.toNat 0) p.relativeBase).toNat 0)) ∧
    (¬ p.inRange position → ∀ mode, mode = 0 ∨ mode = 1 ∨ mode = 2 →
      p.LoadParam position mode = .error (.readOutOfRange position)) ∧
    (p.inRange position → ¬ p.inRange (p.memory.getD position.toNat 0) →
      p.LoadParam position 0 = .error (.readOutOfRange (p.memory.getD position.toNat 0))) ∧
    (p.inRange position →
      ¬ p.inRange (goAdd (p.memory.getD position.toNat 0) p.relativeBase) →
      p.LoadParam position 2 = .error
        (.readOutOfRange (goAdd (p.memory.getD position.toNat 0) p.relativeBase))) ∧
    (∀ mode, mode ≠ 0 ∧ mode ≠ 1 ∧ mode ≠ 2 →
      p.LoadParam position mode = .error .unknownInputMode) ∧
    (∀ mode value, p.LoadParam position mode = .ok value ↔
      p.resolveRead position mode = some value) := by
  refine ⟨?_, ?_, ?_, ?_, ?_, ?_, ?_, ?_⟩
  · intro h
    unfold Process.LoadParam
    rw [if_neg (by decide), if_pos rfl, Read_in_range h.1 h.2]
  · intro h hp
    unfold Process.LoadParam
    rw [if_pos rfl, Read_in_range h.1 h.2]
    dsimp only
    rw [Read_in_range hp.1 hp.2]
  · intro h hp
    unfold Process.LoadParam
    rw [if_neg (by decide), if_neg (by decide), if_pos rfl, Read_in_range h.1 h.2]
    dsimp only
    rw [Read_in_range hp.1 hp.2]
  · intro h mode hm
    unfold Process.LoadParam
    rcases hm with rfl | rfl | rfl
    · rw [if_pos rfl, Read_out_of_range h]
    · rw [if_neg (by decide), if_pos rfl, Read_out_of_range h]
    · rw [if_neg (by decide), if_neg (by decide), if_pos rfl, Read_out_of_range h]
  · intro h hp
    unfold Process.LoadParam
    rw [if_pos rfl, Read_in_range h.1 h.2]
    dsimp only
    rw [Read_out_of_range hp]
  · intro h hp
    unfold Process.LoadParam
    rw [if_neg (by decide), if_neg (by decide), if_pos rfl, Read_in_range h.1 h.2]
    dsimp only
    rw [Read_out_of_range hp]
  · intro mode hm
    exact LoadParam_unknown_mode p position hm
  · intro mode value
    exact LoadParam_ok_iff_resolveRead p position mode value

/-- C15 at the process on `[4, 7, 0, 5, 9]` with relative base 2, position 0: the three
modes give `memory[0] = 4`, `memory[4] = 9` and `memory[4 + 2]`, which is out of range. -/
theorem C15_LoadParam_is_reference_resolver_witness :
    ({ padded [4, 7, 0, 5, 9] 0 [] with relativeBase := 2 } : Process).LoadParam 0 1
        = .ok 4 ∧
      ({ padded [4, 7, 0, 5, 9] 0 [] with relativeBase := 2 } : Process).LoadParam 0 0
        = .ok 9 ∧
      ({ padded [4, 7, 0, 5, 9] 0 [] with relativeBase := 2 } : Process).LoadParam 0 2
        = .error (.readOutOfRange 6) :=
  ⟨(C15_LoadParam_is_reference_resolver
      { padded [4, 7, 0, 5, 9] 0 [] with relativeBase := 2 } 0).1 (by decide),
    (C15_LoadParam_is_reference_resolver
      { padded [4, 7, 0, 5, 9] 0 [] with relativeBase := 2 } 0).2.1 (by decide) (by decide),
    (C15_LoadParam_is_reference_resolver
      { padded [4, 7, 0, 5, 9] 0 [] with relativeBase := 2 } 0).2.2.2.2.2.1 (by decide)
      (by decide)⟩

/-- C16: in both VMs `Read(addr)` returns an error (the out-of-range error for `addr`)
if and only if `addr < 0` or `addr >= len(memory)`, and otherwise returns
`memory[addr]` with a nil error.  `Read` assigns to no field: in the embedding it
returns a result and no new state. -/
theorem C16_Read_bounds_checked (addr : Int) :
    (∀ p : Process,
      ((∃ err, p.Read addr = .error err) ↔ (addr < 0 ∨ addr ≥ p.memory.length)) ∧
      (addr < 0 ∨ addr ≥ p.memory.length → p.Read addr = .error (.readOutOfRange addr)) ∧
      (¬ (addr < 0 ∨ addr ≥ p.memory.length) →
        p.Read addr = .ok (p.memory.getD addr.toNat 0))) ∧
    (∀ p : Program,
      ((∃ err, p.Read addr = .error err) ↔ (addr < 0 ∨ addr ≥ p.memory.length)) ∧
      (addr < 0 ∨ addr ≥ p.memory.length → p.Read addr = .error (.readOutOfRange addr)) ∧
      (¬ (addr < 0 ∨ addr ≥ p.memory.length) →
        p.Read addr = .ok (p.memory.getD addr.toNat 0))) := by
  constructor
  · intro p
    have hout : addr < 0 ∨ addr ≥ p.memory.length →
        p.Read addr = .error (.readOutOfRange addr) := by
      intro h
      unfold Process.Read
      rw [if_pos (by omega)]
    have hin : ¬ (addr < 0 ∨ addr ≥ p.memory.length) →
        p.Read addr = .ok (p.memory.getD addr.toNat 0) := by
      intro h
      unfold Process.Read
      rw [if_neg (by omega)]
    refine ⟨⟨?_, fun h => ⟨_, hout h⟩⟩, hout, hin⟩
    rintro ⟨err, herr⟩
    by_contra hno
    rw [hin hno] at herr
    cases herr
  · intro p
    have hout : addr < 0 ∨ addr ≥ p.memory.length →
        p.Read addr = .error (.readOutOfRange addr) := by
      intro h
      unfold Program.Read
      rw [if_pos (by omega)]
    have hin : ¬ (addr < 0 ∨ addr ≥ p.memory.length) →
        p.Read addr = .ok (p.memory.getD addr.toNat 0) := by
      intro h
      unfold Program.Read
      rw [if_neg (by omega)]
    refine ⟨⟨?_, fun h => ⟨_, hout h⟩⟩, hout, hin⟩
    rintro ⟨err, herr⟩
    by_contra hno
    rw [hin hno] at herr
    cases herr

/-- C16 at `addr = 5` on five cells, in both VMs: the first address past the end is an
error. -/
theorem C16_Read_bounds_checked_witness :
    (padded [1, 0, 0, 0, 99] 0 []).Read 5 = .error (.readOutOfRange 5) ∧
      (Program.mk [1, 0, 0, 0, 99] 0).Read 5 = .error (.readOutOfRange 5) :=
  ⟨((C16_Read_bounds_checked 5).1 (padded [1, 0, 0, 0, 99] 0 [])).2.1 (by decide),
    ((C16_Read_bounds_checked 5).2 (Program.mk [1, 0, 0, 0, 99] 0)).2.1 (by decide)⟩

/-! ## Construction and capacity -/

theorem body_recurse_memory_length {p p1 : Process} (h : p.body = .recurse p1) :
    p1.memory.length = p.memory.length := by
  obtain ⟨_, _, hcases⟩ := body_recurse h
  rcases hcases with ⟨_, _, hl⟩ | ⟨_, _, hl, _⟩ | ⟨_, v, hp⟩ | ⟨_, t, hp⟩ | ⟨_, v, hp⟩
  · exact hl
  · exact hl
  · rw [hp]
  · rw [hp]
  · rw [hp]

theorem memory_length_of_run {fuel : Nat} {p q : Process} {err : Option Error}
    (h : p.RunTilInterupt fuel = some (.returned q err)) :
    q.memory.length = p.memory.length := by
  refine RunTilInterupt_rel (fun a b => b.memory.length = a.memory.length) ?_ ?_ ?_ h
  · intro a b hb
    exact body_recurse_memory_length hb
  · intro a b e hb
    rw [(body_returned_fields hb).1]
  · intro a b c hab hbc
    exact hbc.trans hab

/-- C17: `NewProcess(code, ins)` has a memory of `len(code) + 900000` cells, `code`
followed by zeros; `position`, `relativeBase`, `inputPointer` and `outputPointer` are 0,
`halted` is false, the input queue is `ins` and the output log is empty.  The length of
the memory is the same after a call of `RunTilInterupt` that returns, after `AddInput`
and after `NextOutput`. -/
theorem C17_NewProcess_and_fixed_capacity (code ins : List Int) :
    (NewProcess code ins).memory.length = code.length + 900000 ∧
    (NewProcess code ins).memory = code ++ List.replicate headroom 0 ∧ headroom = 900000 ∧
    (∀ i, i < code.length → (NewProcess code ins).memory.getD i 0 = code.getD i 0) ∧
    (∀ i, code.length ≤ i → (NewProcess code ins).memory.getD i 0 = 0) ∧
    (NewProcess code ins).position = 0 ∧
    (NewProcess code ins).relativeBase = 0 ∧
    (NewProcess code ins).halted = false ∧
    (NewProcess code ins).input = ins ∧
    (NewProcess code ins).inputPointer = 0 ∧
    (NewProcess code ins).output = [] ∧
    (NewProcess code ins).outputPointer = 0 ∧
    (∀ (p q : Process) (fuel : Nat) (err : Option Error),
      p.RunTilInterupt fuel = some (.returned q err) →
      q.memory.length = p.memory.length) ∧
    (∀ (p : Process) (val : Int), (p.AddInput val).memory.length = p.memory.length) ∧
    (∀ (p q : Process) (value : Int), p.NextOutput = some (value, q) →
      q.memory.length = p.memory.length) := by
  refine ⟨?_, rfl, rfl, ?_, ?_, rfl, rfl, rfl, rfl, rfl, rfl, rfl, ?_, ?_, ?_⟩
  · show (code ++ List.replicate headroom 0).length = code.length + 900000
    rw [List.length_append, List.length_replicate, show headroom = 900000 from rfl]
  · intro i hi
    exact NewProcess_getD code ins i hi
  · intro i hi
    show (code ++ List.replicate headroom (0 : Int)).getD i 0 = 0
    rw [List.getD_eq_getElem?_getD, List.getElem?_append_right hi]
    by_cases hlt : i - code.length < headroom
    · rw [List.getElem?_replicate_of_lt hlt]
      rfl
    · rw [List.getElem?_eq_none (by rw [List.length_replicate]; omega)]
      rfl
  · intro p q fuel err h
    exact memory_length_of_run h
  · intro p val
    rfl
  · intro p q value h
    rw [(NextOutput_fields h).2.2.2]

/-- C17 at the one-cell program `[99]`: the run that halts leaves the one cell. -/
theorem C17_NewProcess_and_fixed_capacity_witness :
    ({ padded [99] 0 [] with halted := true } : Process).memory.length =
      (padded [99] 0 []).memory.length :=
  (C17_NewProcess_and_fixed_capacity [] []).2.2.2.2.2.2.2.2.2.2.2.2.1
    (padded [99] 0 []) _ 1 none rfl

theorem selfModify_padded :
    (padded [1002, 4, 3, 4, 33] 3 []).RunTilInterupt 2 = some (.returned
      { memory := [1002, 4, 3, 4, 99, 0, 0, 0]
        position := 4
        output := []
        input := []
        inputPointer := 0
        outputPointer := 0
        relativeBase := 0
        halted := true } none) ∧ (padded [1002, 4, 3, 4, 33] 3 []).roomy 2 = true :=
  ⟨rfl, rfl⟩

/-- C18: `NewProcess([1002,4,3,4,33], [])` run with `RunTilInterupt` returns with a nil
error after two instructions, halted, with `memory[4] = 99`: the Multiply reads 33 from
cell 4 and the immediate 3 and writes 99 over cell 4, which is then executed as the
Halt. -/
theorem C18_multiply_creates_halt :
    ∃ q, (NewProcess [1002, 4, 3, 4, 33] []).RunTilInterupt 2 = some (.returned q none) ∧
      q.halted = true ∧ q.memory.getD 4 0 = 99 ∧ q.position = 4 ∧
      q.memory.take 5 = [1002, 4, 3, 4, 99] := by
  obtain ⟨hrun, hroom⟩ := selfModify_padded
  have hext := RunTilInterupt_extend (List.replicate (headroom - 3) 0) hroom hrun
  rw [← NewProcess_eq_extend _ _ 3 (by decide)] at hext
  refine ⟨_, hext, rfl, ?_, rfl, ?_⟩
  · show (([1002, 4, 3, 4, 99, 0, 0, 0] : List Int) ++ _).getD 4 0 = 99
    rw [List.getD_append _ _ _ 4 (by decide)]
    rfl
  · show (([1002, 4, 3, 4, 99, 0, 0, 0] : List Int) ++ _).take 5 = _
    rw [List.take_append_of_le_length (by decide)]
    rfl

theorem addSelf_padded :
    (padded [1, 0, 0, 0, 99] 3 []).RunTilInterupt 2 = some (.returned
      { memory := [2, 0, 0, 0, 99, 0, 0, 0]
        position := 4
        output := []
        input := []
        inputPointer := 0
        outputPointer := 0
        relativeBase := 0
        halted := true } none) ∧ (padded [1, 0, 0, 0, 99] 3 []).roomy 2 = true :=
  ⟨rfl, rfl⟩

/-- C19: `NewProcess([1,0,0,0,99], [])` run with `RunTilInterupt` returns with a nil
error after two instructions, halted, with `memory[0] = 2` and `memory[1..4]` still
`0, 0, 0, 99`. -/
theorem C19_add_in_place :
    ∃ q, (NewProcess [1, 0, 0, 0, 99] []).RunTilInterupt 2 = some (.returned q none) ∧
      q.halted = true ∧ q.memory.getD 0 0 = 2 ∧
      q.memory.take 5 = [2, 0, 0, 0, 99] := by
  obtain ⟨hrun, hroom⟩ := addSelf_padded
  have hext := RunTilInterupt_extend (List.replicate (headroom - 3) 0) hroom hrun
  rw [← NewProcess_eq_extend _ _ 3 (by decide)] at hext
  refine ⟨_, hext, rfl, ?_, ?_⟩
  · show (([2, 0, 0, 0, 99, 0, 0, 0] : List Int) ++ _).getD 0 0 = 2
    rw [List.getD_append _ _ _ 0 (by decide)]
    rfl
  · show (([2, 0, 0, 0, 99, 0, 0, 0] : List Int) ++ _).take 5 = _
    rw [List.take_append_of_le_length (by decide)]
    rfl

/-! ## The output cursor -/

theorem NextOutput_unread {p : Process}
    (h0 : 0 ≤ p.outputPointer) (h1 : p.outputPointer < p.output.length) :
    p.NextOutput = some (p.output.getD p.outputPointer.toNat 0,
      { p with outputPointer := p.outputPointer + 1 }) := by
  unfold Process.NextOutput
  rw [if_pos ⟨h0, h1⟩]

theorem NextOutputs_unread (k : Nat) {p : Process}
    (h0 : 0 ≤ p.outputPointer) (h1 : p.outputPointer + k ≤ p.output.length) :
    p.NextOutputs k = some ((p.output.drop p.outputPointer.toNat).take k,
      { p with outputPointer := p.outputPointer + k }) := by
  induction k generalizing p with
  | zero =>
    simp [Process.NextOutputs]
  | succ k ih =>
    have hlt : p.outputPointer < p.output.length := by omega
    have hnext := ih (p := { p with outputPointer := p.outputPointer + 1 })
      (show (0 : Int) ≤ p.outputPointer + 1 by omega)
      (show p.outputPointer + 1 + (k : Int) ≤ p.output.length by omega)
    simp only [Process.NextOutputs, NextOutput_unread h0 hlt, hnext]
    rw [drop_cursor h0 hlt, List.take_succ_cons]
    have hk : p.outputPointer + 1 + (k : Int) = p.outputPointer + ((k + 1 : Nat) : Int) := by
      push_cast; omega
    rw [hk]

/-- C20: for a process with unread output (`outputPointer < len(output)`, the cursor
being an index), `NextOutput` returns `output[outputPointer]` and leaves the process
with `outputPointer + 1` and every other field as it was; and `k` successive calls, for
`k` at most the number of unread outputs, return the first `k` unread outputs in the
order in which they were appended, each once, and leave `outputPointer + k`. -/
theorem C20_NextOutput_reads_in_order (p : Process)
    (h0 : 0 ≤ p.outputPointer) (h1 : p.outputPointer < p.output.length) :
    p.NextOutput = some (p.output.getD p.outputPointer.toNat 0,
        { p with outputPointer := p.outputPointer + 1 }) ∧
      ∀ k : Nat, p.outputPointer + k ≤ p.output.length →
        p.NextOutputs k = some ((p.output.drop p.outputPointer.toNat).take k,
          { p with outputPointer := p.outputPointer + k }) :=
  ⟨NextOutput_unread h0 h1, fun k hk => NextOutputs_unread k h0 hk⟩

/-- C20 at a process with output log `[5, 6, 7]` and the cursor at 1: the next output is
6, and two calls return 6 then 7. -/
theorem C20_NextOutput_reads_in_order_witness :
    ({ padded [99] 0 [] with output := [5, 6, 7], outputPointer := 1 } : Process).NextOutput
        = some (6, { padded [99] 0 [] with output := [5, 6, 7], outputPointer := 2 }) ∧
      ({ padded [99] 0 [] with output := [5, 6, 7], outputPointer := 1 } : Process).NextOutputs 2
        = some ([6, 7], { padded [99] 0 [] with output := [5, 6, 7], outputPointer := 3 }) :=
  ⟨(C20_NextOutput_reads_in_order
      { padded [99] 0 [] with output := [5, 6, 7], outputPointer := 1 }
      (by decide) (by decide)).1,
    (C20_NextOutput_reads_in_order
      { padded [99] 0 [] with output := [5, 6, 7], outputPointer := 1 }
      (by decide) (by decide)).2 2 (by decide)⟩

/-! ## The day-5 VM -/

/-- C23: for every integer `x`, `Program.Run(x, out)` on
`NewProgram([3,3,1107,-1,8,3,4,3,99])` with `out` empty returns (after four
instructions) a nil error and leaves `out.values` as `[1]` when `x < 8` and as `[0]`
when `x >= 8`. -/
theorem C23_lessThan8_output (x : Int) :
    ∃ p out, (NewProgram [3, 3, 1107, -1, 8, 3, 4, 3, 99]).Run 4 x { values := [] }
        = some (p, out, none) ∧
      out.values = (if x < 8 then [1] else [0]) := by
  refine ⟨{ memory := [3, 3, 1107, if x < 8 then 1 else 0, 8, 3, 4, 3, 99], position := 8 },
    { values := [if x < 8 then 1 else 0] }, rfl, ?_⟩
  show [if x < 8 then (1 : Int) else 0] = _
  split <;> rfl

/-- The defect behind C22, for every state: an instruction with opcode 1, 2, 7 or 8
whose operands load and whose result pointer is outside the memory is not a fault; the
error of `Write` is dropped and the run goes on at `position + 4` with the memory as it
was. -/
theorem Program.binary_write_dropped {p : Program} (output : Output) (f : Int → Int → Int)
    {m1 m2 a b d : Int}
    (ha : p.LoadParam (p.position + 1) m1 = .ok a)
    (hb : p.LoadParam (p.position + 2) m2 = .ok b)
    (hd : p.Read (p.position + 3) = .ok d)
    (hout : d ≥ p.memory.length ∨ d < 0) :
    p.Write d (f a b) = (p, some .writeOutOfRange) ∧
      p.binary output f m1 m2 = .recurse { p with position := p.position + 4 } output := by
  have hw : p.Write d (f a b) = (p, some .writeOutOfRange) := by
    unfold Program.Write
    rw [if_pos hout]
  refine ⟨hw, ?_⟩
  unfold Program.binary
  simp only [ha, hb, hd, hw]

/-- C22, the code at the failing input: in `NewProgram([1,0,0,5,99])` the Add has
readable operands (both load to 1) and the destination `memory[3] = 5` outside the five
cells.  `Program.Write(5, 2)` returns its out-of-range error, `Program.Run` drops it,
moves on by 4 and returns nil at the Halt, with the memory as it was. -/
theorem C22_day5_write_error_dropped (input : Int) :
    (NewProgram [1, 0, 0, 5, 99]).LoadParam 1 0 = .ok 1 ∧
      (NewProgram [1, 0, 0, 5, 99]).LoadParam 2 0 = .ok 1 ∧
      (NewProgram [1, 0, 0, 5, 99]).Read 3 = .ok 5 ∧
      (NewProgram [1, 0, 0, 5, 99]).Write 5 2
        = (NewProgram [1, 0, 0, 5, 99], some .writeOutOfRange) ∧
      (NewProgram [1, 0, 0, 5, 99]).Run 2 input { values := [] }
        = some ({ memory := [1, 0, 0, 5, 99], position := 4 }, { values := [] }, none) :=
  ⟨rfl, rfl, rfl, rfl, rfl⟩

/-! ## Reading past the end of the output log -/

/-- C21 as stated fails at `NewProcess([99], [])`, a process that has produced no
output: its cursor is at the end of the log (`outputPointer = len(output) = 0`) and the
call `NextOutput()` does not come back to its caller with a condition; the index
expression `p.output[p.outputPointer]` panics. -/
theorem C21_NextOutput_at_end_counterexample :
    (NewProcess [99] []).outputPointer = (NewProcess [99] []).output.length ∧
      (NewProcess [99] []).NextOutput = none :=
  ⟨rfl, rfl⟩

/-- C21, amended: for every process whose read cursor is at the end of the output log
(`outputPointer = len(output)`), `NextOutput` panics on the index expression
`p.output[p.outputPointer]`, its first statement: the call returns no value, and the
panic comes before `p.outputPointer++`, so no field has been assigned.  The same holds
for any number of further calls, and a call panics exactly when the cursor is outside
`[0, len(output))`. -/
theorem C21_NextOutput_at_end_panics (p : Process)
    (h : p.outputPointer = p.output.length) :
    p.NextOutput = none ∧ (∀ k, p.NextOutputs (k + 1) = none) ∧
      (∀ q : Process, q.NextOutput = none ↔
        ¬ (0 ≤ q.outputPointer ∧ q.outputPointer < q.output.length)) := by
  have hnone : p.NextOutput = none := by
    unfold Process.NextOutput
    rw [if_neg (by omega)]
  refine ⟨hnone, ?_, ?_⟩
  · intro k
    simp only [Process.NextOutputs, hnone]
  · intro q
    unfold Process.NextOutput
    constructor
    · intro hq hr
      rw [if_pos hr] at hq
      cases hq
    · intro hr
      rw [if_neg hr]

/-- C21, amended, at a process with output log `[5, 6, 7]` all read. -/
theorem C21_NextOutput_at_end_panics_witness :
    ({ padded [99] 0 [] with output := [5, 6, 7], outputPointer := 3 } : Process).outputPointer
        = (3 : Nat) ∧
      ({ padded [99] 0 [] with output := [5, 6, 7], outputPointer := 3 } : Process).NextOutput
        = none :=
  ⟨rfl, (C21_NextOutput_at_end_panics
    { padded [99] 0 [] with output := [5, 6, 7], outputPointer := 3 } rfl).1⟩

/-! ## Write targets in a mode other than 0 and 2 -/

theorem Write_other_mode {p : Process} {position mode : Int} (value : Int)
    (h0 : 0 ≤ position) (h1 : position < p.memory.length)
    (hm0 : mode ≠ 0) (hm2 : mode ≠ 2) :
    p.Write position value mode = .returned p none := by
  unfold Process.Write
  rw [if_neg (by omega), if_neg hm0, if_neg hm2]

theorem dispatch_binary {p : Process} {operation : Int}
    (h : instructionOf operation = 1 ∨ instructionOf operation = 2 ∨
      instructionOf operation = 7 ∨ instructionOf operation = 8) :
    ∃ f, p.dispatch operation = p.binary f (param1ModeOf operation) (param2ModeOf operation)
      (param3ModeOf operation) := by
  rcases h with h | h | h | h
  · exact ⟨_, dispatch_add h⟩
  · exact ⟨_, dispatch_multiply h⟩
  · exact ⟨_, dispatch_lessThan h⟩
  · exact ⟨_, dispatch_equals h⟩

/-- C24: (1) for every process, in-range `position`, `value` and `mode` other than 0 and
2 (mode 1 among them), `Process.Write(position, value, mode)` returns a nil error and
leaves the process, its memory included, as it was; (2) so an instruction with opcode 1,
2, 7 or 8 whose operands load and whose third parameter cell is in range with such a
mode runs exactly as the same process with `position + 4` runs, its result written
nowhere; (3) and an Input instruction with unread input whose parameter cell is in range
with such a mode runs exactly as the same process with `inputPointer + 1` and
`position + 2` runs, the input value consumed and written nowhere. -/
theorem C24_write_in_other_mode_is_dropped :
    (∀ (p : Process) (position value mode : Int),
      0 ≤ position → position < p.memory.length → mode ≠ 0 → mode ≠ 2 →
      p.Write position value mode = .returned p none) ∧
    (∀ (p : Process) (fuel : Nat) (a b : Int),
      0 ≤ p.position → p.position + 3 < p.memory.length →
      (instructionOf (p.memory.getD p.position.toNat 0) = 1 ∨
        instructionOf (p.memory.getD p.position.toNat 0) = 2 ∨
        instructionOf (p.memory.getD p.position.toNat 0) = 7 ∨
        instructionOf (p.memory.getD p.position.toNat 0) = 8) →
      p.LoadParam (p.position + 1) (param1ModeOf (p.memory.getD p.position.toNat 0))
        = .ok a →
      p.LoadParam (p.position + 2) (param2ModeOf (p.memory.getD p.position.toNat 0))
        = .ok b →
      param3ModeOf (p.memory.getD p.position.toNat 0) ≠ 0 →
      param3ModeOf (p.memory.getD p.position.toNat 0) ≠ 2 →
      p.RunTilInterupt (fuel + 1) =
        Process.RunTilInterupt fuel { p with position := p.position + 4 }) ∧
    (∀ (p : Process) (fuel : Nat),
      0 ≤ p.position → p.position + 1 < p.memory.length →
      instructionOf (p.memory.getD p.position.toNat 0) = 3 →
      param1ModeOf (p.memory.getD p.position.toNat 0) ≠ 0 →
      param1ModeOf (p.memory.getD p.position.toNat 0) ≠ 2 →
      0 ≤ p.inputPointer → p.inputPointer < p.input.length →
      p.RunTilInterupt (fuel + 1) = Process.RunTilInterupt fuel
        { p with inputPointer := p.inputPointer + 1, position := p.position + 2 }) := by
  refine ⟨?_, ?_, ?_⟩
  · intro p position value mode h0 h1 hm0 hm2
    exact Write_other_mode value h0 h1 hm0 hm2
  · intro p fuel a b h0 h3 hW ha hb hm0 hm2
    apply RunTilInterupt_of_recurse
    obtain ⟨f, hf⟩ := dispatch_binary (p := p) hW
    rw [body_in_range h0 (by omega), hf]
    unfold Process.binary
    simp only [ha, hb]
    rw [Write_other_mode _ (by omega) h3 hm0 hm2]
  · intro p fuel h0 h1 hW hm0 hm2 hi0 hi1
    apply RunTilInterupt_of_recurse
    rw [body_in_range h0 (by omega), dispatch_getInput hW]
    unfold Process.getInput
    have hne : ¬ (p.inputPointer = (p.input.length : Int)) := by omega
    simp only [if_neg hne, if_pos (And.intro hi0 hi1)]
    rw [Write_other_mode _ (by omega) h1 hm0 hm2]

/-- C24 at the program `[10001, 0, 0, 0, 99]`, an Add whose third mode digit is 1: the
sum 20002 is written nowhere and the run goes on at the Halt in cell 4. -/
theorem C24_write_in_other_mode_is_dropped_witness :
    param3ModeOf 10001 = 1 ∧
      (padded [10001, 0, 0, 0, 99] 0 []).Write 3 20002 1
        = .returned (padded [10001, 0, 0, 0, 99] 0 []) none ∧
      (padded [10001, 0, 0, 0, 99] 0 []).RunTilInterupt 2 = Process.RunTilInterupt 1
        { padded [10001, 0, 0, 0, 99] 0 [] with position := 4 } :=
  ⟨by decide,
    C24_write_in_other_mode_is_dropped.1 (padded [10001, 0, 0, 0, 99] 0 []) 3 20002 1
      (by decide) (by decide) (by decide) (by decide),
    C24_write_in_other_mode_is_dropped.2.1 (padded [10001, 0, 0, 0, 99] 0 []) 1 10001 10001
      (by decide) (by decide) (by decide) rfl rfl (by decide) (by decide)⟩

/-! ## The loop `Process.Run` -/

theorem RunTilInterupt_unique {p : Process} {fuel1 fuel2 : Nat} {out1 out2 : Outcome}
    (h1 : p.RunTilInterupt fuel1 = some out1) (h2 : p.RunTilInterupt fuel2 = some out2) :
    out1 = out2 := by
  have e1 := RunTilInterupt_add_fuel h1 fuel2
  have e2 := RunTilInterupt_add_fuel h2 fuel1
  rw [Nat.add_comm] at e2
  rw [e1] at e2
  exact Option.some.inj e2

/-- A `return nil` of the body of `RunTilInterupt` is the Input case with no unread
input, or the Halt case. -/
theorem body_returned_nil {p q : Process} (h : p.body = .returned q none) :
    p.starved ∨ q = { p with halted := true } := by
  unfold Process.body at h
  cases hr : p.Read p.position with
  | error e => rw [hr] at h; cases h
  | ok operation =>
    obtain ⟨h0, h1, rfl⟩ := Read_ok hr
    simp only [hr] at h
    revert h
    refine dispatch_rel p p _ (fun s _ => s = .returned q none → _) ?_ ?_ ?_ ?_ ?_ ?_ ?_
    · intro _ f m1 m2 m3 h; exact absurd rfl (binary_returned h).2
    · intro h3 m1 h; exact Or.inl ⟨h0, h1, h3, (getInput_returned h).2.2⟩
    · intro _ m1 h; exact absurd rfl (writeOutput_returned h).2
    · intro _ taken m1 m2 h; exact absurd rfl (jump_returned h).2
    · intro _ m1 h; exact absurd rfl (adjustRelativeBase_returned h).2
    · intro _ h; cases h; exact Or.inr rfl
    · intro _ h; cases h

theorem returned_state_fixed {fuel : Nat} {s s' : Process} {r : Option Error}
    (h : s.RunTilInterupt fuel = some (.returned s' r)) : s'.body = .returned s' r := by
  induction fuel generalizing s with
  | zero => simp [Process.RunTilInterupt] at h
  | succ fuel ih =>
    cases hb : s.body with
    | recurse p1 =>
      rw [RunTilInterupt_of_recurse hb] at h
      exact ih h
    | returned p1 err =>
      rw [RunTilInterupt_of_returned hb] at h
      cases h
      exact body_returned_fixed hb
    | panicked =>
      rw [RunTilInterupt_of_panicked hb] at h
      cases h

theorem Run_of_fixed {p : Process} (hb : p.body = .returned p none) (hh : p.halted = false)
    (iterations fuel : Nat) : p.Run iterations fuel = none := by
  induction iterations with
  | zero => rfl
  | succ n ih =>
    cases fuel with
    | zero => simp only [Process.Run, Process.RunTilInterupt]
    | succ fuel =>
      simp only [Process.Run, RunTilInterupt_of_returned hb, hh, Bool.false_eq_true,
        if_false]
      exact ih

theorem Run_returned_nil {iterations fuel : Nat} {p q : Process}
    (h : p.Run iterations fuel = some (.returned q none)) : q.halted = true := by
  induction iterations generalizing p with
  | zero => simp [Process.Run] at h
  | succ n ih =>
    unfold Process.Run at h
    cases hr : p.RunTilInterupt fuel with
    | none => rw [hr] at h; cases h
    | some out =>
      rw [hr] at h
      cases out with
      | panicked => cases h
      | returned q1 err =>
        cases err with
        | some e => cases h
        | none =>
          dsimp only at h
          by_cases hh : q1.halted = true
          · rw [if_pos hh] at h
            cases h
            exact hh
          · rw [if_neg hh] at h
            exact ih h

theorem Run_returned_error {iterations fuel : Nat} {p q : Process} {err : Error}
    (h : p.Run iterations fuel = some (.returned q (some err))) :
    ∃ p1 : Process, p1.RunTilInterupt fuel = some (.returned q (some err)) := by
  induction iterations generalizing p with
  | zero => simp [Process.Run] at h
  | succ n ih =>
    unfold Process.Run at h
    cases hr : p.RunTilInterupt fuel with
    | none => rw [hr] at h; cases h
    | some out =>
      rw [hr] at h
      cases out with
      | panicked => cases h
      | returned q1 err1 =>
        cases err1 with
        | some e =>
          cases h
          exact ⟨p, hr⟩
        | none =>
          dsimp only at h
          by_cases hh : q1.halted = true
          · rw [if_pos hh] at h
            cases h
          · rw [if_neg hh] at h
            exact ih h

/-- C25: (1) when a call of `RunTilInterupt` from `s` returns nil in a state `s'` with
`halted` still false, `s'` is at an Input instruction with the input queue exhausted;
every further call of `RunTilInterupt` returns nil again and leaves `s'` as it is, so
every iteration of the loop of `Run` finds no error and `halted = false`, and `Run` from
`s` returns nothing, however many iterations and instructions it is given; (2) when
`Run` returns nil the process is halted; (3) when `Run` returns an error, that error was
returned by a call of `RunTilInterupt`, in the state `Run` leaves. -/
theorem C25_Run_spins_on_input_starvation :
    (∀ (s s' : Process) (fuel0 : Nat),
      s.RunTilInterupt fuel0 = some (.returned s' none) → s'.halted = false →
      s'.starved ∧
        (∀ fuel, s'.RunTilInterupt (fuel + 1) = some (.returned s' none)) ∧
        (∀ iterations fuel, s.Run iterations fuel = none)) ∧
    (∀ (p q : Process) (iterations fuel : Nat),
      p.Run iterations fuel = some (.returned q none) → q.halted = true) ∧
    (∀ (p q : Process) (err : Error) (iterations fuel : Nat),
      p.Run iterations fuel = some (.returned q (some err)) →
      ∃ p1 : Process, p1.RunTilInterupt fuel = some (.returned q (some err))) := by
  refine ⟨?_, ?_, ?_⟩
  · intro s s' fuel0 hrun hh
    have hfix := returned_state_fixed hrun
    refine ⟨?_, fun fuel => RunTilInterupt_of_returned hfix fuel, ?_⟩
    · rcases body_returned_nil hfix with hst | hq
      · exact hst
      · rw [hq] at hh
        cases hh
    · intro iterations fuel
      cases iterations with
      | zero => rfl
      | succ n =>
        unfold Process.Run
        cases hr : s.RunTilInterupt fuel with
        | none => rfl
        | some out =>
          have hout := RunTilInterupt_unique hr hrun
          subst hout
          simp only [hh, Bool.false_eq_true, if_false]
          exact Run_of_fixed hfix hh n fuel
  · intro p q iterations fuel h
    exact Run_returned_nil h
  · intro p q err iterations fuel h
    exact Run_returned_error h

/-- C25 at the program `[3, 0]` with no input, on which `Run` with 3 iterations of 5
instructions returns nothing, and at the program `[99]`, on which `Run` returns nil in
its first iteration, halted. -/
theorem C25_Run_spins_on_input_starvation_witness :
    (padded [3, 0] 0 []).RunTilInterupt 1 = some (.returned (padded [3, 0] 0 []) none) ∧
      (padded [3, 0] 0 []).Run 3 5 = none ∧
      (padded [99] 0 []).Run 1 1
        = some (.returned { padded [99] 0 [] with halted := true } none) ∧
      ({ padded [99] 0 [] with halted := true } : Process).halted = true :=
  ⟨rfl,
    (C25_Run_spins_on_input_starvation.1 (padded [3, 0] 0 []) (padded [3, 0] 0 []) 1
      rfl rfl).2.2 3 5,
    rfl,
    C25_Run_spins_on_input_starvation.2.1 (padded [99] 0 []) _ 1 1 rfl⟩

end Intcode
